import Mathlib

/-!
Verification of GuardianBridge (an AI API gateway) against its
natural-language specification.  The Python source is shallowly embedded:
JSON bodies become an inductive `Json` value, dicts become association
lists, and each relevant source function becomes an executable Lean
definition translated line by line from the source file named in its
doc comment.
-/

set_option maxHeartbeats 1000000

namespace GuardianBridge

/-- JSON values as handled by the gateway.  Numbers are restricted to
integers: no claim involves floating point, and the bodies exercised by
the claims contain only integer numerals. -/
inductive Json where
  | null
  | bool (b : Bool)
  | num (n : Int)
  | str (s : String)
  | arr (xs : List Json)
  | obj (kvs : List (String × Json))

mutual

/-- Structural equality test for JSON values. -/
def Json.beq : Json → Json → Bool
  | .null, .null => true
  | .bool a, .bool b => a == b
  | .num a, .num b => a == b
  | .str a, .str b => a == b
  | .arr xs, .arr ys => Json.beqList xs ys
  | .obj xs, .obj ys => Json.beqObj xs ys
  | _, _ => false

/-- Structural equality test for JSON arrays. -/
def Json.beqList : List Json → List Json → Bool
  | [], [] => true
  | x :: xs, y :: ys => Json.beq x y && Json.beqList xs ys
  | _, _ => false

/-- Structural equality test for JSON objects. -/
def Json.beqObj : List (String × Json) → List (String × Json) → Bool
  | [], [] => true
  | (k1, v1) :: xs, (k2, v2) :: ys =>
      k1 == k2 && Json.beq v1 v2 && Json.beqObj xs ys
  | _, _ => false

end

mutual

theorem Json.beq_refl : ∀ a : Json, Json.beq a a = true
  | .null => rfl
  | .bool b => by simp [Json.beq]
  | .num n => by simp [Json.beq]
  | .str s => by simp [Json.beq]
  | .arr xs => by simpa [Json.beq] using Json.beqList_refl xs
  | .obj kvs => by simpa [Json.beq] using Json.beqObj_refl kvs

theorem Json.beqList_refl : ∀ xs : List Json, Json.beqList xs xs = true
  | [] => rfl
  | x :: xs => by
      simp only [Json.beqList, Bool.and_eq_true]
      exact ⟨Json.beq_refl x, Json.beqList_refl xs⟩

theorem Json.beqObj_refl : ∀ kvs : List (String × Json), Json.beqObj kvs kvs = true
  | [] => rfl
  | (k, v) :: kvs => by
      simp only [Json.beqObj, Bool.and_eq_true, beq_self_eq_true, true_and]
      exact ⟨Json.beq_refl v, Json.beqObj_refl kvs⟩

end

mutual

theorem Json.eq_of_beq : ∀ a b : Json, Json.beq a b = true → a = b
  | .null, .null, _ => rfl
  | .bool a, .bool b, h => by
      simp only [Json.beq, beq_iff_eq] at h; rw [h]
  | .num a, .num b, h => by
      simp only [Json.beq, beq_iff_eq] at h; rw [h]
  | .str a, .str b, h => by
      simp only [Json.beq, beq_iff_eq] at h; rw [h]
  | .arr xs, .arr ys, h => by
      rw [Json.eqList_of_beq xs ys (by simpa [Json.beq] using h)]
  | .obj xs, .obj ys, h => by
      rw [Json.eqObj_of_beq xs ys (by simpa [Json.beq] using h)]
  | .null, .bool _, h | .null, .num _, h | .null, .str _, h
  | .null, .arr _, h | .null, .obj _, h
  | .bool _, .null, h | .bool _, .num _, h | .bool _, .str _, h
  | .bool _, .arr _, h | .bool _, .obj _, h
  | .num _, .null, h | .num _, .bool _, h | .num _, .str _, h
  | .num _, .arr _, h | .num _, .obj _, h
  | .str _, .null, h | .str _, .bool _, h | .str _, .num _, h
  | .str _, .arr _, h | .str _, .obj _, h
  | .arr _, .null, h | .arr _, .bool _, h | .arr _, .num _, h
  | .arr _, .str _, h | .arr _, .obj _, h
  | .obj _, .null, h | .obj _, .bool _, h | .obj _, .num _, h
  | .obj _, .str _, h | .obj _, .arr _, h => Bool.noConfusion h

theorem Json.eqList_of_beq : ∀ xs ys : List Json, Json.beqList xs ys = true → xs = ys
  | [], [], _ => rfl
  | x :: xs, y :: ys, h => by
      simp only [Json.beqList, Bool.and_eq_true] at h
      rw [Json.eq_of_beq x y h.1, Json.eqList_of_beq xs ys h.2]
  | [], _ :: _, h => Bool.noConfusion h
  | _ :: _, [], h => Bool.noConfusion h

theorem Json.eqObj_of_beq :
    ∀ xs ys : List (String × Json), Json.beqObj xs ys = true → xs = ys
  | [], [], _ => rfl
  | (k1, v1) :: xs, (k2, v2) :: ys, h => by
      simp only [Json.beqObj, Bool.and_eq_true, beq_iff_eq] at h
      rw [h.1.1, Json.eq_of_beq v1 v2 h.1.2, Json.eqObj_of_beq xs ys h.2]
  | [], _ :: _, h => Bool.noConfusion h
  | _ :: _, [], h => Bool.noConfusion h

end

theorem Json.beq_iff_eq (a b : Json) : Json.beq a b = true ↔ a = b :=
  ⟨Json.eq_of_beq a b, fun h => h ▸ Json.beq_refl a⟩

instance : DecidableEq Json :=
  fun a b => decidable_of_iff _ (Json.beq_iff_eq a b)

/-- A Python dict with string keys, as an ordered association list
(Python dicts preserve insertion order). -/
abbrev Jobj := List (String × Json)

namespace Json

/-- `d.get(k)` on a Python dict: first value bound to `k`, if any. -/
def getKey : Jobj → String → Option Json
  | [], _ => none
  | (k, v) :: rest, key => if k = key then some v else getKey rest key

/-- Python truthiness of a JSON value. -/
def truthy : Json → Bool
  | .null => false
  | .bool b => b
  | .num n => n != 0
  | .str s => s ≠ ""
  | .arr xs => !xs.isEmpty
  | .obj kvs => !kvs.isEmpty

/-- Read a value as a list, with a default (models `body.get(k, [])`
followed by list iteration; non-list values yield the default). -/
def asArrD (v : Option Json) (d : List Json) : List Json :=
  match v with
  | some (.arr xs) => xs
  | _ => d

/-- Read a value as a dict, with a default. -/
def asObjD (v : Option Json) (d : Jobj) : Jobj :=
  match v with
  | some (.obj kvs) => kvs
  | _ => d

/-- Read a value as a string, with a default. -/
def asStrD (v : Option Json) (d : String) : String :=
  match v with
  | some (.str s) => s
  | _ => d

/-- Read a value as an optional string: JSON strings survive, `null`
and an absent key both become `none` (Python `None`). -/
def asStrOpt (v : Option Json) : Option String :=
  match v with
  | some (.str s) => some s
  | _ => none

/-- `dict.update`: existing keys are overwritten in place, new keys are
appended in order, exactly as in Python. -/
def updateAssoc (base : Jobj) (upd : Jobj) : Jobj :=
  upd.foldl (fun acc (kv : String × Json) =>
    if acc.any (fun p => p.1 = kv.1) then
      acc.map (fun p => if p.1 = kv.1 then (p.1, kv.2) else p)
    else acc ++ [kv]) base

end Json

/-- String escaping of `json.dumps(..., ensure_ascii=False)`: backslash,
double quote and the named control characters get two-character escapes,
all other characters below 0x20 get a `\u00XX` escape, everything else
(including non-ASCII) is emitted verbatim. -/
def dumpsChar (c : Char) : String :=
  if c = '\\' then "\\\\"
  else if c = '"' then "\\\""
  else if c = '\n' then "\\n"
  else if c = '\r' then "\\r"
  else if c = '\t' then "\\t"
  else if c = '\x08' then "\\b"
  else if c = '\x0c' then "\\f"
  else if c.toNat < 0x20 then
    let hex := Nat.toDigits 16 c.toNat
    "\\u" ++ String.mk (List.replicate (4 - hex.length) '0') ++ String.mk hex
  else String.singleton c

/-- `json.dumps` rendering of a string literal. -/
def dumpsStr (s : String) : String :=
  "\"" ++ String.join (s.toList.map dumpsChar) ++ "\""

mutual

/-- `json.dumps(v, ensure_ascii=False)` with the default separators
`", "` and `": "`, as used by the adapters when serializing tool-call
arguments and tool-result objects. -/
def dumpsJson : Json → String
  | .null => "null"
  | .bool true => "true"
  | .bool false => "false"
  | .num n => toString n
  | .str s => dumpsStr s
  | .arr xs => "[" ++ dumpsList xs ++ "]"
  | .obj kvs => "\x7b" ++ dumpsObj kvs ++ "\x7d"

/-- Comma-separated rendering of array elements. -/
def dumpsList : List Json → String
  | [] => ""
  | [x] => dumpsJson x
  | x :: rest => dumpsJson x ++ ", " ++ dumpsList rest

/-- Comma-separated rendering of object entries. -/
def dumpsObj : List (String × Json) → String
  | [] => ""
  | [(k, v)] => dumpsStr k ++ ": " ++ dumpsJson v
  | (k, v) :: rest => dumpsStr k ++ ": " ++ dumpsJson v ++ ", " ++ dumpsObj rest

end

/-- Whitespace accepted between JSON tokens by `json.loads`. -/
def jsonWs (c : Char) : Bool :=
  c = ' ' || c = '\t' || c = '\n' || c = '\r'

/-- Drop leading JSON whitespace. -/
def skipWs : List Char → List Char
  | c :: rest => if jsonWs c then skipWs rest else c :: rest
  | [] => []

/-- Hexadecimal digit value, if any. -/
def hexVal (c : Char) : Option Nat :=
  if '0' ≤ c ∧ c ≤ '9' then some (c.toNat - '0'.toNat)
  else if 'a' ≤ c ∧ c ≤ 'f' then some (c.toNat - 'a'.toNat + 10)
  else if 'A' ≤ c ∧ c ≤ 'F' then some (c.toNat - 'A'.toNat + 10)
  else none

/-- Parse the body of a JSON string literal (the opening quote already
consumed), handling the escape sequences `json.loads` accepts. -/
def parseStrBody : Nat → List Char → String → Option (String × List Char)
  | 0, _, _ => none
  | _ + 1, [], _ => none
  | fuel + 1, c :: rest, acc =>
    if c = '"' then some (acc, rest)
    else if c = '\\' then
      match rest with
      | [] => none
      | e :: rest2 =>
        if e = '"' then parseStrBody fuel rest2 (acc.push '"')
        else if e = '\\' then parseStrBody fuel rest2 (acc.push '\\')
        else if e = '/' then parseStrBody fuel rest2 (acc.push '/')
        else if e = 'b' then parseStrBody fuel rest2 (acc.push '\x08')
        else if e = 'f' then parseStrBody fuel rest2 (acc.push '\x0c')
        else if e = 'n' then parseStrBody fuel rest2 (acc.push '\n')
        else if e = 'r' then parseStrBody fuel rest2 (acc.push '\r')
        else if e = 't' then parseStrBody fuel rest2 (acc.push '\t')
        else if e = 'u' then
          match rest2 with
          | h1 :: h2 :: h3 :: h4 :: rest3 =>
            match hexVal h1, hexVal h2, hexVal h3, hexVal h4 with
            | some a, some b, some c', some d =>
              let n := ((a * 16 + b) * 16 + c') * 16 + d
              if n.isValidChar then
                parseStrBody fuel rest3 (acc.push (Char.ofNat n))
              else none
            | _, _, _, _ => none
          | _ => none
        else none
    else parseStrBody fuel rest (acc.push c)

/-- Parse a run of decimal digits. -/
def parseDigits : List Char → Nat → Nat → (Nat × Nat × List Char)
  | c :: rest, acc, count =>
    if '0' ≤ c ∧ c ≤ '9' then
      parseDigits rest (acc * 10 + (c.toNat - '0'.toNat)) (count + 1)
    else (acc, count, c :: rest)
  | [], acc, count => (acc, count, [])

mutual

/-- Parser mirroring `json.loads`, restricted to integer numerals: a
numeral followed by `.`, `e` or `E` (a float) is rejected because the
`Json` model carries no floats; no body exercised by the claims contains
one.  The fuel argument only bounds recursion depth. -/
def parseValue : Nat → List Char → Option (Json × List Char)
  | 0, _ => none
  | fuel + 1, cs =>
    match skipWs cs with
    | [] => none
    | c :: rest =>
      if c = 'n' then
        match rest with
        | 'u' :: 'l' :: 'l' :: rest2 => some (.null, rest2)
        | _ => none
      else if c = 't' then
        match rest with
        | 'r' :: 'u' :: 'e' :: rest2 => some (.bool true, rest2)
        | _ => none
      else if c = 'f' then
        match rest with
        | 'a' :: 'l' :: 's' :: 'e' :: rest2 => some (.bool false, rest2)
        | _ => none
      else if c = '"' then
        match parseStrBody (fuel + 1) rest "" with
        | some (s, rest2) => some (.str s, rest2)
        | none => none
      else if c = '[' then
        match skipWs rest with
        | ']' :: rest2 => some (.arr [], rest2)
        | cs2 => parseArrItems fuel cs2 []
      else if c = '\x7b' then
        match skipWs rest with
        | '\x7d' :: rest2 => some (.obj [], rest2)
        | cs2 => parseObjItems fuel cs2 []
      else
        let (neg, cs2) := if c = '-' then (true, rest) else (false, c :: rest)
        match cs2 with
        | d :: _ =>
          if '0' ≤ d ∧ d ≤ '9' then
            let (n, count, rest3) := parseDigits cs2 0 0
            if count = 0 then none
            else if d = '0' ∧ count > 1 then none
            else
              match rest3 with
              | e :: _ =>
                if e = '.' ∨ e = 'e' ∨ e = 'E' then none
                else some (.num (if neg then -(n : Int) else (n : Int)), rest3)
              | [] => some (.num (if neg then -(n : Int) else (n : Int)), [])
          else none
        | [] => none

/-- Parse the remaining items of a non-empty JSON array. -/
def parseArrItems : Nat → List Char → List Json → Option (Json × List Char)
  | 0, _, _ => none
  | fuel + 1, cs, acc =>
    match parseValue fuel cs with
    | none => none
    | some (v, rest) =>
      match skipWs rest with
      | ',' :: rest2 => parseArrItems fuel rest2 (acc ++ [v])
      | ']' :: rest2 => some (.arr (acc ++ [v]), rest2)
      | _ => none

/-- Parse the remaining entries of a non-empty JSON object. -/
def parseObjItems : Nat → List Char → List (String × Json) →
    Option (Json × List Char)
  | 0, _, _ => none
  | fuel + 1, cs, acc =>
    match skipWs cs with
    | '"' :: rest =>
      match parseStrBody (fuel + 1) rest "" with
      | none => none
      | some (k, rest2) =>
        match skipWs rest2 with
        | ':' :: rest3 =>
          match parseValue fuel rest3 with
          | none => none
          | some (v, rest4) =>
            match skipWs rest4 with
            | ',' :: rest5 => parseObjItems fuel rest5 (acc ++ [(k, v)])
            | '\x7d' :: rest5 => some (.obj (acc ++ [(k, v)]), rest5)
            | _ => none
        | _ => none
    | _ => none

end

/-- `json.loads` on a whole document: parse one value and require only
whitespace after it. -/
def parseJson (s : String) : Option Json :=
  match parseValue (2 * s.length + 8) s.toList with
  | some (v, rest) => if skipWs rest = [] then some v else none
  | none => none

mutual

/-- Python `repr` of a JSON-like value (used by `str()` on containers).
Quote escaping inside repr'd strings is elided; no claim exercises it. -/
def pyRepr : Json → String
  | .null => "None"
  | .bool true => "True"
  | .bool false => "False"
  | .num n => toString n
  | .str s => "'" ++ s ++ "'"
  | .arr xs => "[" ++ pyReprList xs ++ "]"
  | .obj kvs => "\x7b" ++ pyReprObj kvs ++ "\x7d"

/-- `repr` of the elements of a Python list. -/
def pyReprList : List Json → String
  | [] => ""
  | [x] => pyRepr x
  | x :: rest => pyRepr x ++ ", " ++ pyReprList rest

/-- `repr` of the entries of a Python dict. -/
def pyReprObj : List (String × Json) → String
  | [] => ""
  | [(k, v)] => "'" ++ k ++ "': " ++ pyRepr v
  | (k, v) :: rest => "'" ++ k ++ "': " ++ pyRepr v ++ ", " ++ pyReprObj rest

end

/-- Python `str()` of a JSON-like value. -/
def pyStr : Json → String
  | .str s => s
  | v => pyRepr v

/-!  Internal (neutral) chat models, from
`src/ai_proxy/transform/formats/internal_models.py`.  Optional pydantic
fields become `Option`; `dict` fields become `Jobj`; the `Any` field
`output` becomes `Json`. -/

/-- `InternalTool` from internal_models.py. -/
structure InternalTool where
  name : String
  description : Option String
  input_schema : Jobj
deriving DecidableEq

/-- `InternalToolCall` from internal_models.py. -/
structure InternalToolCall where
  id : String
  name : String
  arguments : Jobj
deriving DecidableEq

/-- `InternalToolResult` from internal_models.py. -/
structure InternalToolResult where
  call_id : String
  name : Option String
  output : Json
deriving DecidableEq

/-- `InternalImageBlock` from internal_models.py. -/
structure InternalImageBlock where
  url : String
  detail : Option String
deriving DecidableEq

/-- `InternalContentBlock` from internal_models.py: a `type` tag of
`"text" | "tool_call" | "tool_result" | "image_url"` plus one optional
payload field per variant, mirroring the source's non-sum shape. -/
structure InternalContentBlock where
  type : String
  text : Option String := none
  tool_call : Option InternalToolCall := none
  tool_result : Option InternalToolResult := none
  image_url : Option InternalImageBlock := none
deriving DecidableEq

/-- Text content block. -/
def mkText (t : String) : InternalContentBlock := { type := "text", text := some t }

/-- Tool-call content block. -/
def mkToolCall (tc : InternalToolCall) : InternalContentBlock :=
  { type := "tool_call", tool_call := some tc }

/-- Tool-result content block. -/
def mkToolResult (tr : InternalToolResult) : InternalContentBlock :=
  { type := "tool_result", tool_result := some tr }

/-- Image content block. -/
def mkImage (im : InternalImageBlock) : InternalContentBlock :=
  { type := "image_url", image_url := some im }

/-- `InternalMessage` from internal_models.py. -/
structure InternalMessage where
  role : String
  content : List InternalContentBlock
deriving DecidableEq

/-- `InternalChatRequest` from internal_models.py. -/
structure InternalChatRequest where
  messages : List InternalMessage
  model : String
  stream : Bool := false
  tools : List InternalTool := []
  tool_choice : Option Json := none
  extra : Jobj := []
deriving DecidableEq

/-!  OpenAI Chat adapter, from
`src/ai_proxy/transform/formats/openai_chat.py`. -/

/-- Tool-definition parsing inside `from_openai_chat` (lines 67-75):
entries whose `type` is `"function"` yield an `InternalTool`. -/
def parseOpenaiTool (t : Json) : Option InternalTool :=
  match t with
  | .obj tobj =>
    if Json.getKey tobj "type" = some (.str "function") then
      let func := Json.asObjD (Json.getKey tobj "function") []
      some { name := Json.asStrD (Json.getKey func "name") ""
             description := Json.asStrOpt (Json.getKey func "description")
             input_schema := Json.asObjD (Json.getKey func "parameters") [] }
    else none
  | _ => none

/-- One multi-part content entry in `from_openai_chat` (lines 88-112):
`text` parts become text blocks; `image_url` parts with a truthy `url`
become image blocks; anything else is skipped. -/
def parseOpenaiPart (part : Json) : Option InternalContentBlock :=
  match part with
  | .obj pobj =>
    if Json.getKey pobj "type" = some (.str "text") then
      some (mkText (match Json.getKey pobj "text" with
        | some v => if v.truthy then Json.asStrD (some v) "" else ""
        | none => ""))
    else if Json.getKey pobj "type" = some (.str "image_url") then
      let image_data := Json.asObjD (Json.getKey pobj "image_url") []
      match Json.getKey image_data "url" with
      | some (.str url) =>
        if url = "" then none
        else some (mkImage { url := url
                             detail := Json.asStrOpt (Json.getKey image_data "detail") })
      | _ => none
    else none
  | _ => none

/-- Tool-call parsing in `from_openai_chat` (lines 126-140): the
`arguments` string is `json.loads`'d; a parse failure yields `{}`.  A
non-string `arguments` value is used as is when it is an object (the
pydantic model would reject any other type). -/
def parseOpenaiToolCall (tc : Json) : InternalContentBlock :=
  let tobj := Json.asObjD (some tc) []
  let func := Json.asObjD (Json.getKey tobj "function") []
  let args_str := (Json.getKey func "arguments").getD (.str "\x7b\x7d")
  let args : Jobj :=
    match args_str with
    | .str s =>
      match parseJson s with
      | some (.obj kvs) => kvs
      | _ => []
    | .obj kvs => kvs
    | _ => []
  mkToolCall { id := Json.asStrD (Json.getKey tobj "id") ""
               name := Json.asStrD (Json.getKey func "name") ""
               arguments := args }

/-- Per-message body of `from_openai_chat` (lines 79-149). -/
def parseOpenaiMessage (msg : Json) : InternalMessage :=
  let mobj := Json.asObjD (some msg) []
  let contentBlocks : List InternalContentBlock :=
    match Json.getKey mobj "content" with
    | some (.str s) => if s ≠ "" then [mkText s] else []
    | some (.arr parts) => parts.filterMap parseOpenaiPart
    | _ => []
  let toolResultBlocks : List InternalContentBlock :=
    if Json.getKey mobj "role" = some (.str "tool") then
      [mkToolResult
        { call_id := Json.asStrD (Json.getKey mobj "tool_call_id") ""
          name := Json.asStrOpt (Json.getKey mobj "name")
          output := (Json.getKey mobj "content").getD (.str "") }]
    else []
  let toolCallBlocks : List InternalContentBlock :=
    (Json.asArrD (Json.getKey mobj "tool_calls") []).map parseOpenaiToolCall
  let blocks := contentBlocks ++ toolResultBlocks ++ toolCallBlocks
  { role := Json.asStrD (Json.getKey mobj "role") "user"
    content := if blocks.isEmpty then [mkText ""] else blocks }

/-- `from_openai_chat` (openai_chat.py lines 62-159): OpenAI Chat body
to the neutral request. -/
def from_openai_chat (body : Jobj) : InternalChatRequest :=
  { messages := (Json.asArrD (Json.getKey body "messages") []).map parseOpenaiMessage
    model := Json.asStrD (Json.getKey body "model") ""
    stream := match Json.getKey body "stream" with
      | some (.bool b) => b
      | _ => false
    tools := (Json.asArrD (Json.getKey body "tools") []).filterMap parseOpenaiTool
    tool_choice := match Json.getKey body "tool_choice" with
      | some .null => none
      | v => v
    extra := body.filter (fun kv =>
      kv.1 ∉ ["messages", "model", "stream", "tools", "tool_choice"]) }

/-- Rendering of one tool definition in `to_openai_chat` (lines 167-176). -/
def renderOpenaiTool (t : InternalTool) : Json :=
  .obj [("type", .str "function"),
        ("function", .obj [("name", .str t.name),
                           ("description", match t.description with
                             | some d => .str d
                             | none => .null),
                           ("parameters", .obj t.input_schema)])]

/-- Rendering of one `tool_calls[]` entry in `to_openai_chat`
(lines 214-221): arguments are serialized with `json.dumps`. -/
def renderOpenaiToolCall (tc : InternalToolCall) : Json :=
  .obj [("id", .str tc.id),
        ("type", .str "function"),
        ("function", .obj [("name", .str tc.name),
                           ("arguments", .str (dumpsJson (.obj tc.arguments)))])]

/-- The multi-part content entries built in `to_openai_chat` when a
message contains image blocks (lines 193-204). -/
def renderOpenaiPart (b : InternalContentBlock) : Option Json :=
  if b.type = "text" then
    match b.text with
    | some t => some (.obj [("type", .str "text"), ("text", .str t)])
    | none => none
  else if b.type = "image_url" then
    match b.image_url with
    | some im =>
      some (.obj [("type", .str "image_url"),
                  ("image_url", .obj ([("url", .str im.url)] ++
                    (match im.detail with
                     | some d => if d ≠ "" then [("detail", .str d)] else []
                     | none => [])))])
    | none => none
  else none

/-- The extra `role="tool"` message emitted for each tool-result block
in `to_openai_chat` (lines 226-232). -/
def renderOpenaiToolResultMsg (tr : InternalToolResult) : Json :=
  .obj [("role", .str "tool"),
        ("tool_call_id", .str tr.call_id),
        ("name", match tr.name with | some n => .str n | none => .null),
        ("content", .str (match tr.output with
          | .obj kvs => dumpsJson (.obj kvs)
          | v => pyStr v))]

/-- Per-message body of `to_openai_chat` (lines 180-232): the main
message (absent for `role="tool"`), followed by one `role="tool"`
message per tool-result block. -/
def renderOpenaiMessage (m : InternalMessage) : List Json :=
  let text_blocks := m.content.filterMap (fun b =>
    if b.type = "text" then b.text else none)
  let tool_call_blocks := m.content.filterMap (fun b =>
    if b.type = "tool_call" then b.tool_call else none)
  let tool_result_blocks := m.content.filterMap (fun b =>
    if b.type = "tool_result" then b.tool_result else none)
  let image_blocks := m.content.filterMap (fun b =>
    if b.type = "image_url" then b.image_url else none)
  let main : List Json :=
    if m.role ≠ "tool" then
      let contentEntry : Jobj :=
        if !image_blocks.isEmpty then
          let parts := m.content.filterMap renderOpenaiPart
          [("content", if parts.isEmpty then .str "" else .arr parts)]
        else if !text_blocks.isEmpty then
          [("content", .str (String.intercalate "\n" text_blocks))]
        else if tool_call_blocks.isEmpty then
          [("content", .str "")]
        else []
      let toolCallsEntry : Jobj :=
        if !tool_call_blocks.isEmpty then
          [("tool_calls", .arr (tool_call_blocks.map renderOpenaiToolCall))]
        else []
      [.obj ([("role", .str m.role)] ++ contentEntry ++ toolCallsEntry)]
    else []
  main ++ tool_result_blocks.map renderOpenaiToolResultMsg

/-- `to_openai_chat` (openai_chat.py lines 162-248): neutral request to
OpenAI Chat body. -/
def to_openai_chat (req : InternalChatRequest) : Jobj :=
  let messages := req.messages.flatMap renderOpenaiMessage
  let body : Jobj :=
    [("model", .str req.model),
     ("messages", .arr messages),
     ("stream", .bool req.stream)] ++
    (if !req.tools.isEmpty then
      [("tools", .arr (req.tools.map renderOpenaiTool))] else []) ++
    (match req.tool_choice with
     | some tc => [("tool_choice", tc)]
     | none => [])
  Json.updateAssoc body req.extra

/-!  Claude Chat adapter, from
`src/ai_proxy/transform/formats/claude_chat.py`. -/

/-- Tool-definition parsing in `_from_claude_chat` (lines 105-111). -/
def parseClaudeTool (t : Json) : InternalTool :=
  let tobj := Json.asObjD (some t) []
  { name := Json.asStrD (Json.getKey tobj "name") ""
    description := Json.asStrOpt (Json.getKey tobj "description")
    input_schema := Json.asObjD (Json.getKey tobj "input_schema") [] }

/-- One content entry of a Claude message in `_from_claude_chat`
(lines 141-166): `text` / `tool_use` / `tool_result` produce a block,
any other `type` produces nothing. -/
def parseClaudePart (c : Json) : Option InternalContentBlock :=
  let cobj := Json.asObjD (some c) []
  let ctype := Json.asStrD (Json.getKey cobj "type") ""
  if ctype = "text" then
    some (mkText (Json.asStrD (Json.getKey cobj "text") ""))
  else if ctype = "tool_use" then
    some (mkToolCall
      { id := Json.asStrD (Json.getKey cobj "id") ""
        name := Json.asStrD (Json.getKey cobj "name") ""
        arguments := match Json.getKey cobj "input" with
          | some (.obj kvs) => kvs
          | _ => [] })
  else if ctype = "tool_result" then
    let output₀ := (Json.getKey cobj "content").getD (.str "")
    let output : Json :=
      match output₀ with
      | .arr items =>
        .str (String.intercalate "\n" (items.filterMap (fun item =>
          let iobj := Json.asObjD (some item) []
          if Json.getKey iobj "type" = some (.str "text") then
            some (Json.asStrD (Json.getKey iobj "text") "")
          else none)))
      | v => v
    some (mkToolResult { call_id := Json.asStrD (Json.getKey cobj "tool_use_id") ""
                         name := none
                         output := output })
  else none

/-- Per-message body of `_from_claude_chat` (lines 134-172). -/
def parseClaudeMessage (msg : Json) : InternalMessage :=
  let mobj := Json.asObjD (some msg) []
  let blocks : List InternalContentBlock :=
    match (Json.getKey mobj "content").getD (.arr []) with
    | .str s => [mkText s]
    | .arr parts => parts.filterMap parseClaudePart
    | _ => []
  { role := if Json.getKey mobj "role" = some (.str "user") then "user" else "assistant"
    content := if blocks.isEmpty then [mkText ""] else blocks }

/-- The system message extracted from a top-level `system` field in
`_from_claude_chat` (lines 114-132). -/
def parseClaudeSystem (system_content : Option Json) : List InternalMessage :=
  match system_content with
  | some sc =>
    if sc.truthy then
      let system_text : String :=
        match sc with
        | .str s => s
        | .arr blocksList =>
          String.intercalate "\n" (blocksList.filterMap (fun b =>
            match b with
            | .obj bobj =>
              if Json.getKey bobj "type" = some (.str "text") then
                some (Json.asStrD (Json.getKey bobj "text") "")
              else none
            | _ => none))
        | _ => ""
      if system_text ≠ "" then [{ role := "system", content := [mkText system_text] }]
      else []
    else []
  | none => []

/-- `_from_claude_chat` (claude_chat.py lines 103-182): standard Claude
Chat body to the neutral request. -/
def _from_claude_chat (body : Jobj) : InternalChatRequest :=
  { messages := parseClaudeSystem (Json.getKey body "system") ++
      (Json.asArrD (Json.getKey body "messages") []).map parseClaudeMessage
    model := Json.asStrD (Json.getKey body "model") ""
    stream := match Json.getKey body "stream" with
      | some (.bool b) => b
      | _ => false
    tools := (Json.asArrD (Json.getKey body "tools") []).map parseClaudeTool
    tool_choice := match Json.getKey body "tool_choice" with
      | some .null => none
      | v => v
    extra := body.filter (fun kv =>
      kv.1 ∉ ["system", "messages", "model", "stream", "tools", "tool_choice"]) }

/-- Rendering of one tool definition in `to_claude_chat` (lines 199-205). -/
def renderClaudeTool (t : InternalTool) : Json :=
  .obj [("name", .str t.name),
        ("description", match t.description with
          | some d => .str d
          | none => .null),
        ("input_schema", .obj t.input_schema)]

/-- Per-block rendering in `to_claude_chat` (lines 230-253): empty text
blocks and image blocks emit nothing. -/
def renderClaudePart (b : InternalContentBlock) : Option Json :=
  if b.type = "text" then
    match b.text with
    | some t => if t ≠ "" then some (.obj [("type", .str "text"), ("text", .str t)]) else none
    | none => none
  else if b.type = "tool_call" then
    match b.tool_call with
    | some tc =>
      some (.obj [("type", .str "tool_use"),
                  ("id", .str tc.id),
                  ("name", .str tc.name),
                  ("input", .obj tc.arguments)])
    | none => none
  else if b.type = "tool_result" then
    match b.tool_result with
    | some tr =>
      let result_content : Json :=
        match tr.output with
        | .str s => .arr [.obj [("type", .str "text"), ("text", .str s)]]
        | .obj kvs => .arr [.obj [("type", .str "text"),
                                  ("text", .str (dumpsJson (.obj kvs)))]]
        | v => v
      some (.obj [("type", .str "tool_result"),
                  ("tool_use_id", .str tr.call_id),
                  ("content", result_content)])
    | none => none
  else none

/-- Per-message body of `to_claude_chat` (lines 227-257): messages whose
rendered content is empty are dropped; a neutral `tool` role is emitted
as `assistant`. -/
def renderClaudeMessage (m : InternalMessage) : List Json :=
  let content := m.content.filterMap renderClaudePart
  if !content.isEmpty then
    [.obj [("role", .str (if m.role = "user" then "user" else "assistant")),
           ("content", .arr content)]]
  else []

/-- `to_claude_chat` (claude_chat.py lines 194-268): neutral request to
Claude Chat body; neutral system messages are merged into the top-level
`system` field, newline-joined, keeping only truthy texts. -/
def to_claude_chat (req : InternalChatRequest) : Jobj :=
  let system_msgs := req.messages.filter (fun m => m.role = "system")
  let other_msgs := req.messages.filter (fun m => m.role ≠ "system")
  let system_texts := system_msgs.flatMap (fun m =>
    m.content.filterMap (fun b =>
      if b.type = "text" then
        match b.text with
        | some t => if t ≠ "" then some t else none
        | none => none
      else none))
  let body : Jobj :=
    [("model", .str req.model),
     ("stream", .bool req.stream)] ++
    (if !system_msgs.isEmpty ∧ !system_texts.isEmpty then
      [("system", .str (String.intercalate "\n" system_texts))] else []) ++
    [("messages", .arr (other_msgs.flatMap renderClaudeMessage))] ++
    (if !req.tools.isEmpty then
      [("tools", .arr (req.tools.map renderClaudeTool))] else []) ++
    (match req.tool_choice with
     | some tc => [("tool_choice", tc)]
     | none => [])
  Json.updateAssoc body req.extra

/-!  Stream validator, from `src/ai_proxy/proxy/stream_checker.py`.
Chunks are modelled after UTF-8 decoding (a chunk that fails to decode
is ignored by the source exactly like a chunk with no `data:` lines).
`_parse_data` receives the `json.loads` result; values on which the
Python code would raise `TypeError` (non-dict frames, non-string
deltas) are treated as contributing nothing. -/

/-- Mutable state of `StreamChecker`: `accumulated_content` and
`has_tool_call`; `char_threshold` is the constant 2. -/
structure CheckerState where
  accumulated_content : String
  has_tool_call : Bool
deriving DecidableEq

/-- The commit condition checked by `check_chunk` (lines 23 and 46):
a tool call was seen or more than 2 accumulated characters. -/
def commitCond (st : CheckerState) : Bool :=
  st.has_tool_call || st.accumulated_content.length > 2

/-- The body of the `for choice in data["choices"]` loop of
`_parse_data` (lines 57-67): a string `delta.content` is appended to the
accumulated content and a truthy `delta.tool_calls` sets the tool-call
flag. -/
def choiceStep (st : CheckerState) (choice : Json) : CheckerState :=
  let cobj := Json.asObjD (some choice) []
  let delta := Json.asObjD (Json.getKey cobj "delta") []
  let st1 :=
    match Json.getKey delta "content" with
    | some (.str s) => { st with accumulated_content := st.accumulated_content ++ s }
    | _ => st
  if ((Json.getKey delta "tool_calls").getD .null).truthy then
    { st1 with has_tool_call := true }
  else st1

/-- The `choices[].delta` handling of `_parse_data` (lines 56-67). -/
def parseChoices (st : CheckerState) (d : Jobj) : CheckerState :=
  match Json.getKey d "choices" with
  | some (.arr choices) => choices.foldl choiceStep st
  | _ => st

/-- The Claude-style `type` handling of `_parse_data` (lines 72-86). -/
def parseClaudeEvent (st : CheckerState) (d : Jobj) : CheckerState :=
  match Json.getKey d "type" with
  | some dtype =>
    if dtype = .str "content_block_delta" then
      let delta := Json.asObjD (Json.getKey d "delta") []
      if Json.getKey delta "type" = some (.str "text_delta") then
        { st with accumulated_content :=
            st.accumulated_content ++ Json.asStrD (Json.getKey delta "text") "" }
      else st
    else if dtype = .str "message_start" then
      let msg := Json.asObjD (Json.getKey d "message") []
      if (Json.asArrD (Json.getKey msg "content") []).any (fun c =>
          Json.getKey (Json.asObjD (some c) []) "type" = some (.str "tool_use")) then
        { st with has_tool_call := true }
      else st
    else if dtype = .str "content_block_start" then
      if Json.getKey (Json.asObjD (Json.getKey d "content_block") []) "type" =
          some (.str "tool_use") then
        { st with has_tool_call := true }
      else st
    else st
  | none => st

/-- `StreamChecker._parse_data` (lines 53-86): both the OpenAI branch
and the Claude branch run on the same frame. -/
def parse_data (st : CheckerState) (data : Json) : CheckerState :=
  match data with
  | .obj d => parseClaudeEvent (parseChoices st d) d
  | _ => st

/-- Python `str.strip` on the whitespace set of C `isspace` (the exotic
Unicode whitespace Python also strips is not exercised by any claim). -/
def pyWs (c : Char) : Bool :=
  c = ' ' || c = '\t' || c = '\n' || c = '\r' || c = '\x0b' || c = '\x0c'

/-- Python `str.strip()`. -/
def pyStrip (s : String) : String :=
  String.mk ((s.toList.dropWhile pyWs).reverse.dropWhile pyWs |>.reverse)

/-- Python `str.startswith`. -/
def strStartsWith (s pre : String) : Bool :=
  pre.toList.isPrefixOf s.toList

/-- Python slicing `s[n:]` (by code point, as in Python). -/
def strDrop (s : String) (n : ℕ) : String :=
  String.mk (s.toList.drop n)

/-- Python `text.split(sep)` for a single-character separator. -/
def splitOnChar (sep : Char) (s : String) : List String :=
  (s.toList.foldr
    (fun c acc =>
      match acc with
      | [] => [[c]]
      | cur :: rest => if c = sep then [] :: cur :: rest else (c :: cur) :: rest)
    [[]]).map String.mk

/-- The per-line loop of `check_chunk` (lines 33-49), including the early
return as soon as the commit condition is met mid-chunk. -/
def checkLines (st : CheckerState) : List String → Bool × CheckerState
  | [] => (false, st)
  | line :: rest =>
    let line := pyStrip line
    if !strStartsWith line "data: " then checkLines st rest
    else
      let data_str := strDrop line 6
      if data_str = "[DONE]" then checkLines st rest
      else
        match parseJson data_str with
        | none => checkLines st rest
        | some data =>
          let st' := parse_data st data
          if commitCond st' then (true, st')
          else checkLines st' rest

/-- `StreamChecker.check_chunk` (lines 17-51) on a decoded chunk,
returning the boolean result together with the updated checker state. -/
def check_chunk (st : CheckerState) (chunk : String) : Bool × CheckerState :=
  if commitCond st then (true, st)
  else checkLines st (splitOnChar '\n' chunk)

/-- Feeding a sequence of chunks to one `StreamChecker` instance,
collecting each `check_chunk` return value. -/
def checkRun (st : CheckerState) : List String → List Bool
  | [] => []
  | c :: cs =>
    let (r, st') := check_chunk st c
    r :: checkRun st' cs

/-- The fresh state built by `StreamChecker.__init__`. -/
def initChecker : CheckerState := { accumulated_content := "", has_tool_call := false }

/-- The decoded data frame carried by one SSE line, if any: the line
must strip to a `data: ` line whose payload is not `[DONE]` and parses
as JSON (mirroring the skip conditions of `check_chunk`). -/
def lineData (line : String) : Option Json :=
  let line := pyStrip line
  if !strStartsWith line "data: " then none
  else
    let data_str := strDrop line 6
    if data_str = "[DONE]" then none
    else parseJson data_str

/-- The delta text a single data frame contributes. -/
def frameText (data : Json) : String :=
  (parse_data initChecker data).accumulated_content

/-- Whether a single data frame signals a tool-call start. -/
def frameTool (data : Json) : Bool :=
  (parse_data initChecker data).has_tool_call

/-- The delta text contributed by one SSE line. -/
def lineText (line : String) : String :=
  match lineData line with
  | some data => frameText data
  | none => ""

/-- Whether one SSE line signals a tool-call start. -/
def lineTool (line : String) : Bool :=
  match lineData line with
  | some data => frameTool data
  | none => false

/-- Total delta text of a list of SSE lines. -/
def linesText : List String → String
  | [] => ""
  | l :: ls => lineText l ++ linesText ls

/-- Tool-call signal of a list of SSE lines. -/
def linesTool : List String → Bool
  | [] => false
  | l :: ls => lineTool l || linesTool ls

/-- Total delta text of one chunk. -/
def chunkText (chunk : String) : String := linesText (splitOnChar '\n' chunk)

/-- Tool-call signal of one chunk. -/
def chunkTool (chunk : String) : Bool := linesTool (splitOnChar '\n' chunk)

/-- Total delta text of a chunk sequence. -/
def streamText : List String → String
  | [] => ""
  | c :: cs => chunkText c ++ streamText cs

/-- Tool-call signal of a chunk sequence. -/
def streamTool : List String → Bool
  | [] => false
  | c :: cs => chunkTool c || streamTool cs

/-- The commitment condition of the claims, computed over the decoded
data frames alone: a tool-call start was seen or the accumulated delta
text exceeds 2 characters. -/
def measureCond (chunks : List String) : Bool :=
  streamTool chunks || (streamText chunks).length > 2

/-!  Basic moderation, from `src/ai_proxy/moderation/basic.py`.  A
keywords file is modelled as its list of lines. -/

/-- `re.escape` (Python ≥ 3.7): the characters in
`()[]{}?*+-|^$\.&~# \t\n\r\v\f` are prefixed with a backslash. -/
def pyReEscapeChar (c : Char) : String :=
  if c ∈ ['(', ')', '[', ']', '\x7b', '\x7d', '?', '*', '+', '-', '|',
           '^', '$', '\\', '.', '&', '~', '#', ' ', '\t', '\n', '\r',
           '\x0b', '\x0c'] then
    String.mk ['\\', c]
  else String.singleton c

/-- `re.escape` applied to a whole pattern string. -/
def pyReEscape (s : String) : String :=
  String.join (s.toList.map pyReEscapeChar)

/-- ASCII-only case folding, modelling the case-insensitive match of
`re.IGNORECASE` for the alphabets the claims exercise. -/
def foldCase (s : String) : List Char := s.toList.map Char.toLower

/-- Case-insensitive literal substring test: the behavior of
`re.compile(re.escape(kw), re.IGNORECASE).search(text)`. -/
def ciSubstring (kw text : String) : Bool :=
  (foldCase text).tails.any (fun t => (foldCase kw).isPrefixOf t)

/-- `KeywordFilter._load_patterns` (basic.py lines 31-45): keep each
line stripped of surrounding whitespace, skipping blank lines and lines
starting with `#`.  The compiled pattern source is `re.escape` of the
keyword; the raw keyword is kept here and escaped where `p.pattern` is
read. -/
def _load_patterns (lines : List String) : List String :=
  lines.filterMap (fun line =>
    let kw := pyStrip line
    if kw = "" then none
    else if strStartsWith kw "#" then none
    else some kw)

/-- `KeywordFilter.match` (basic.py lines 47-56): the first pattern that
matches, returned as `p.pattern`, i.e. the `re.escape`d keyword. -/
def keywordMatch (patterns : List String) (text : String) : Option String :=
  match patterns.find? (fun kw => ciSubstring kw text) with
  | some kw => some (pyReEscape kw)
  | none => none

/-- `basic_moderation` (basic.py lines 92-125) for a filter loaded from
the given file lines: returns `(passed, reason)`. -/
def basic_moderation (text : String) (enabled : Bool) (error_code : String)
    (fileLines : List String) : Bool × Option String :=
  if !enabled then (true, none)
  else
    match keywordMatch (_load_patterns fileLines) text with
    | some pat => (false, some ("[" ++ error_code ++ "] Matched keyword: " ++ pat))
    | none => (true, none)

/-!  Smart moderation decision, from
`src/ai_proxy/moderation/smart/bow.py` lines 280-307.  The probability
returned by `bow_predict_proba` (an sklearn model evaluation) enters as
a parameter; probabilities and thresholds are rationals. -/

/-- The three branches of `bow_predict`'s threshold decision. -/
inductive BowBand where
  | lowRisk
  | highRisk
  | uncertain
deriving DecidableEq

/-- `ModerationResult` as filled in by `bow_predict`: the `violation`
flag, the branch taken (the discriminating part of the `reason` string),
`source="bow_model"` and `confidence=proba`. -/
structure BowResult where
  violation : Bool
  band : BowBand
  source : String
  confidence : ℚ
deriving DecidableEq

/-- `bow_predict` (bow.py lines 280-307) given the predicted
probability `proba` and the profile thresholds. -/
def bow_predict (proba low_t high_t : ℚ) : BowResult :=
  if proba < low_t then
    { violation := false, band := .lowRisk, source := "bow_model", confidence := proba }
  else if proba > high_t then
    { violation := true, band := .highRisk, source := "bow_model", confidence := proba }
  else
    { violation := false, band := .uncertain, source := "bow_model", confidence := proba }

/-!  Training scheduler, from
`src/ai_proxy/moderation/smart/scheduler.py` lines 32-50. -/

/-- `should_train`: sample count below `min_samples` refuses; a missing
model forces training; otherwise the model file age (in seconds) is
compared against `retrain_interval_minutes * 60`. -/
def should_train (sample_count min_samples : ℕ) (model_exists : Bool)
    (now model_mtime retrain_interval_minutes : ℚ) : Bool :=
  if sample_count < min_samples then false
  else if !model_exists then true
  else decide (now - model_mtime > retrain_interval_minutes * 60)

/-!  Trainer data preparation, from
`src/ai_proxy/moderation/smart/bow.py` lines 74-93 (`train_bow_model`
steps 0-3).  The sample store is a list in insertion order (ascending,
gapless ids re-indexed from 0; `created_at` ordering coincides with id
ordering).  The storage methods `cleanup_excess_samples` and
`get_sample_ids` are called by bow.py but absent from
`src/ai_proxy/moderation/smart/storage.py`, so they are modelled from
the spec. -/

/-- A stored sample: its id and label (the text plays no role in the
claims about selection). -/
structure Sample where
  id : ℕ
  label : ℕ
deriving DecidableEq

/-- Modelled from the spec: `SampleStorage.cleanup_excess_samples`,
"Trim the sample store by oldest-first to `max_db_items`" — delete the
oldest samples until at most `max_db_items` remain. -/
def cleanup_excess_samples (store : List Sample) (max_db_items : ℕ) : List Sample :=
  store.drop (store.length - max_db_items)

/-- Modelled from the spec: `SampleStorage.get_sample_ids(limit)`,
"Select the most recent `N` sample ids" — the ids of the newest `limit`
samples. -/
def get_sample_ids (store : List Sample) (limit : ℕ) : List ℕ :=
  (store.drop (store.length - limit)).map (·.id)

/-- Configuration slice of `profile.config.bow_training` used by the
selection phase. -/
structure BowTrainCfg where
  max_samples : ℕ
  max_db_items : ℕ
  min_samples : ℕ
deriving DecidableEq

/-- The data-selection phase of `train_bow_model` (bow.py lines 74-93):
clean the database, count, abort below `min_samples`, select the most
recent `min(max_samples, total)` ids and shuffle them.  The shuffle
(`random.shuffle`) enters as a permutation-producing parameter. -/
def train_bow_prepare (store : List Sample) (cfg : BowTrainCfg)
    (shuffle : List ℕ → List ℕ) : List Sample × Option (List ℕ) :=
  let store' := cleanup_excess_samples store cfg.max_db_items
  let total := store'.length
  if total < cfg.min_samples then (store', none)
  else (store', some (shuffle (get_sample_ids store' (min cfg.max_samples total))))

/-!  Artifact persistence, from `src/ai_proxy/moderation/smart/bow.py`
lines 179-181 (`train_bow_model` step 7).  `joblib.dump(obj, path)`
opens and writes `path` itself, so it is modelled as one direct write
to the final path. -/

/-- Filesystem operations observable from the persistence step. -/
inductive FsOp where
  | write (path : String)
  | rename (src dst : String)
deriving DecidableEq

/-- The artifact-persistence trace of `train_bow_model` (bow.py lines
180-181): `joblib.dump(vectorizer, vectorizer_path)` then
`joblib.dump(clf, model_path)`, each a direct write. -/
def persistArtifacts (vectorizer_path model_path : String) : List FsOp :=
  [.write vectorizer_path, .write model_path]

/-- An atomic write-then-rename publication of `path` within a trace:
some temporary file is written and then renamed onto `path`. -/
def atomicPublish (trace : List FsOp) (path : String) : Prop :=
  ∃ tmp, tmp ≠ path ∧ (FsOp.write tmp) ∈ trace ∧ (FsOp.rename tmp path) ∈ trace

/-!  Upstream error path, from `src/ai_proxy/proxy/upstream.py`
lines 122-132 (`UpstreamClient.forward_request`'s exception handler). -/

/-- Outcome of the upstream HTTP call. -/
inductive UpstreamOutcome where
  | success (status : ℕ) (body : Json)
  | networkError (msg : String)
deriving DecidableEq

/-- An HTTP response produced by `forward_request`. -/
structure HttpResponse where
  status : ℕ
  body : Json
deriving DecidableEq

/-- The non-streaming result of `UpstreamClient.forward_request`
(upstream.py lines 91-132, response transformation disabled): a
successful upstream call is passed through; any exception of the
upstream request produces `JSONResponse(status_code=500, ...)` with the
`UPSTREAM_ERROR` envelope. -/
def forward_request (outcome : UpstreamOutcome) : HttpResponse :=
  match outcome with
  | .success status body => { status := status, body := body }
  | .networkError msg =>
    { status := 500
      body := .obj [("error", .obj
        [("code", .str "UPSTREAM_ERROR"),
         ("message", .str ("Upstream request failed: " ++ msg)),
         ("type", .str "upstream_error")])] }

/-!  Supported block kinds per dialect (spec §4.2) and the canonical
(round-trippable) subsets of the neutral model for the two adapters,
used by the round-trip claim. -/

/-- Block kinds the OpenAI Chat adapter handles (spec §4.2). -/
def openaiSupportedTypes : List String := ["text", "image_url", "tool_call", "tool_result"]

/-- Block kinds the Claude Chat adapter handles (spec §4.2). -/
def claudeSupportedTypes : List String := ["text", "tool_call", "tool_result"]

/-- Every content block of the request has a kind in the given set. -/
def blocksSupported (types : List String) (req : InternalChatRequest) : Bool :=
  req.messages.all (fun m => m.content.all (fun b => decide (b.type ∈ types)))

/-- A well-formed text block with non-empty text. -/
def isTextB (b : InternalContentBlock) : Bool :=
  match b.text with
  | some t => b == mkText t && t != ""
  | none => false

/-- A well-formed text block with any text. -/
def isAnyTextB (b : InternalContentBlock) : Bool :=
  match b.text with
  | some t => b == mkText t
  | none => false

/-- A well-formed tool-call block. -/
def isToolCallB (b : InternalContentBlock) : Bool :=
  match b.tool_call with
  | some tc => b == mkToolCall tc
  | none => false

/-- A well-formed tool-call block whose arguments survive the
`json.dumps` / `json.loads` round trip the OpenAI adapter performs. -/
def isSerToolCallB (b : InternalContentBlock) : Bool :=
  match b.tool_call with
  | some tc => b == mkToolCall tc &&
      decide (parseJson (dumpsJson (.obj tc.arguments)) = some (.obj tc.arguments))
  | none => false

/-- A well-formed tool-result block with no name and a string output. -/
def isStrToolResultB (b : InternalContentBlock) : Bool :=
  match b.tool_result with
  | some tr => b == mkToolResult tr && tr.name == none &&
      (match tr.output with | .str _ => true | _ => false)
  | none => false

/-- A well-formed image block with a non-empty url and no empty detail. -/
def isImageB (b : InternalContentBlock) : Bool :=
  match b.image_url with
  | some im => b == mkImage im && im.url != "" && im.detail != some ""
  | none => false

/-- Claude-round-trippable content block: non-empty text, tool call, or
nameless string-output tool result. -/
def admClaudeBlock (b : InternalContentBlock) : Bool :=
  isTextB b || isToolCallB b || isStrToolResultB b

/-- Claude-round-trippable non-system message. -/
def admClaudeMsg (m : InternalMessage) : Bool :=
  (m.role == "user" || m.role == "assistant") && !m.content.isEmpty &&
    m.content.all admClaudeBlock

/-- Claude-round-trippable neutral request: at most one system message,
first, holding exactly one non-empty text block; the other messages
user/assistant with non-empty admissible content; `tool_choice` not
JSON null; `extra` keys distinct and disjoint from the reserved Claude
body keys. -/
def admissible_claude (req : InternalChatRequest) : Bool :=
  (match req.messages with
   | [] => true
   | m :: rest =>
     if m.role == "system" then
       (match m.content with
        | [b] => isTextB b && rest.all admClaudeMsg
        | _ => false)
     else (m :: rest).all admClaudeMsg) &&
  (match req.tool_choice with
   | some .null => false
   | _ => true) &&
  decide (req.extra.map Prod.fst).Nodup &&
  req.extra.all (fun kv => decide (kv.1 ∉
    (["system", "messages", "model", "stream", "tools", "tool_choice"] : List String)))

/-- OpenAI-round-trippable message: role system/user/assistant; content
is a run of text/image blocks followed by a run of serializable tool
calls; when no image is present the non-tool-call prefix is exactly one
text block (non-empty if tool calls follow) or empty with at least one
tool call. -/
def admOpenaiMsg (m : InternalMessage) : Bool :=
  let front := m.content.takeWhile (fun b => b.type != "tool_call")
  let tcs := m.content.dropWhile (fun b => b.type != "tool_call")
  (m.role == "system" || m.role == "user" || m.role == "assistant") &&
  tcs.all isSerToolCallB &&
  (if front.any (fun b => b.type == "image_url") then
    front.all (fun b => isAnyTextB b || isImageB b)
   else
    match front with
    | [] => !tcs.isEmpty
    | [b] => isAnyTextB b && (tcs.isEmpty || b.text != some "")
    | _ => false)

/-- OpenAI-round-trippable neutral request. -/
def admissible_openai (req : InternalChatRequest) : Bool :=
  req.messages.all admOpenaiMsg &&
  (match req.tool_choice with
   | some .null => false
   | _ => true) &&
  decide (req.extra.map Prod.fst).Nodup &&
  req.extra.all (fun kv => decide (kv.1 ∉
    (["messages", "model", "stream", "tools", "tool_choice"] : List String)))

/-- A body segment holding one optional entry under a fixed key. -/
def optSeg (k : String) (o : Option Json) : Jobj :=
  match o with
  | some v => [(k, v)]
  | none => []

/-- The truthy texts of the system messages, as computed inside
`to_claude_chat`. -/
def claudeSystemTexts (req : InternalChatRequest) : List String :=
  (req.messages.filter (fun m => m.role = "system")).flatMap (fun m =>
    m.content.filterMap (fun b =>
      if b.type = "text" then
        match b.text with
        | some t => if t ≠ "" then some t else none
        | none => none
      else none))

/-!  Claim theorems. -/

theorem strFilterMap_textTruthy (t : String) (ht : t ≠ "") :
    ([mkText t] : List InternalContentBlock).filterMap (fun b =>
      if b.type = "text" then
        match b.text with
        | some t => if t ≠ "" then some t else none
        | none => none
      else none) = [t] := by
  simp [mkText, ht]

theorem getKey_cons_self (k : String) (v : Json) (l : Jobj) :
    Json.getKey ((k, v) :: l) k = some v := by
  simp [Json.getKey]

theorem getKey_cons_ne (k' k : String) (v : Json) (l : Jobj) (h : k' ≠ k) :
    Json.getKey ((k', v) :: l) k = Json.getKey l k := by
  simp [Json.getKey, h]

theorem getKey_append_some {l1 : Jobj} (l2 : Jobj) {k : String} {v : Json}
    (h : Json.getKey l1 k = some v) : Json.getKey (l1 ++ l2) k = some v := by
  induction l1 with
  | nil => simp [Json.getKey] at h
  | cons kv tl ih =>
    obtain ⟨k', v'⟩ := kv
    by_cases hk : k' = k
    · rw [List.cons_append]
      simp [Json.getKey, hk] at h ⊢
      exact h
    · rw [List.cons_append, getKey_cons_ne k' k v' _ hk]
      rw [getKey_cons_ne k' k v' _ hk] at h
      exact ih h

theorem getKey_append_none {l1 : Jobj} (l2 : Jobj) {k : String}
    (h : Json.getKey l1 k = none) : Json.getKey (l1 ++ l2) k = Json.getKey l2 k := by
  induction l1 with
  | nil => rfl
  | cons kv tl ih =>
    obtain ⟨k', v'⟩ := kv
    by_cases hk : k' = k
    · simp [Json.getKey, hk] at h
    · rw [List.cons_append, getKey_cons_ne k' k v' _ hk]
      rw [getKey_cons_ne k' k v' _ hk] at h
      exact ih h

theorem getKey_eq_none_of_keys {l : Jobj} {k : String} (h : ∀ kv ∈ l, kv.1 ≠ k) :
    Json.getKey l k = none := by
  induction l with
  | nil => rfl
  | cons kv tl ih =>
    obtain ⟨k', v'⟩ := kv
    rw [getKey_cons_ne k' k v' _ (h (k', v') (by simp))]
    exact ih (fun kv hkv => h kv (by simp [hkv]))

theorem getKey_optSeg_self (k : String) (o : Option Json) :
    Json.getKey (optSeg k o) k = o := by
  cases o <;> simp [optSeg, Json.getKey]

theorem getKey_optSeg_ne (k k' : String) (o : Option Json) (h : k ≠ k') :
    Json.getKey (optSeg k o) k' = none := by
  cases o <;> simp [optSeg, Json.getKey, h]

theorem mem_optSeg {k : String} {o : Option Json} {kv : String × Json}
    (h : kv ∈ optSeg k o) : kv.1 = k := by
  cases o <;> simp [optSeg] at h
  rw [h]

theorem updateAssoc_fresh (base : Jobj) (upd : Jobj)
    (hnodup : (upd.map Prod.fst).Nodup)
    (hdisj : ∀ kv ∈ upd, ∀ kv' ∈ base, kv'.1 ≠ kv.1) :
    Json.updateAssoc base upd = base ++ upd := by
  induction upd generalizing base with
  | nil => simp [Json.updateAssoc]
  | cons kv rest ih =>
    have hany : base.any (fun p => p.1 = kv.1) = false := by
      rw [List.any_eq_false]
      intro p hp
      simpa using hdisj kv (by simp) p hp
    have hstep : Json.updateAssoc base (kv :: rest) =
        Json.updateAssoc (base ++ [kv]) rest := by
      simp only [Json.updateAssoc, List.foldl_cons, hany, Bool.false_eq_true, if_false]
    rw [hstep, ih (base ++ [kv])
      (by simpa using hnodup.of_cons)
      (by intro kv2 hkv2 p hp
          rcases List.mem_append.mp hp with hb | hkvx
          · exact hdisj kv2 (by simp [hkv2]) p hb
          · have hpkv : p = kv := by simpa using hkvx
            subst hpkv
            intro heq
            have hmem : kv2.1 ∈ rest.map Prod.fst := List.mem_map.mpr ⟨kv2, hkv2, rfl⟩
            rw [← heq] at hmem
            simp only [List.map_cons, List.nodup_cons] at hnodup
            exact hnodup.1 hmem)]
    simp

theorem isTextB_spec {b : InternalContentBlock} (h : isTextB b = true) :
    ∃ t, b = mkText t ∧ t ≠ "" := by
  unfold isTextB at h
  rcases hbt : b.text with _ | t
  · rw [hbt] at h
    exact Bool.noConfusion h
  · rw [hbt] at h
    simp only [Bool.and_eq_true, beq_iff_eq, bne_iff_ne, ne_eq] at h
    exact ⟨t, h.1, h.2⟩

theorem isAnyTextB_spec {b : InternalContentBlock} (h : isAnyTextB b = true) :
    ∃ t, b = mkText t := by
  unfold isAnyTextB at h
  rcases hbt : b.text with _ | t
  · rw [hbt] at h
    exact Bool.noConfusion h
  · rw [hbt] at h
    simp only [beq_iff_eq] at h
    exact ⟨t, h⟩

theorem isToolCallB_spec {b : InternalContentBlock} (h : isToolCallB b = true) :
    ∃ tc, b = mkToolCall tc := by
  unfold isToolCallB at h
  rcases hbt : b.tool_call with _ | tc
  · rw [hbt] at h
    exact Bool.noConfusion h
  · rw [hbt] at h
    simp only [beq_iff_eq] at h
    exact ⟨tc, h⟩

theorem isSerToolCallB_spec {b : InternalContentBlock} (h : isSerToolCallB b = true) :
    ∃ tc, b = mkToolCall tc ∧
      parseJson (dumpsJson (.obj tc.arguments)) = some (.obj tc.arguments) := by
  unfold isSerToolCallB at h
  rcases hbt : b.tool_call with _ | tc
  · rw [hbt] at h
    exact Bool.noConfusion h
  · rw [hbt] at h
    simp only [Bool.and_eq_true, beq_iff_eq, decide_eq_true_eq] at h
    exact ⟨tc, h.1, h.2⟩

theorem isStrToolResultB_spec {b : InternalContentBlock} (h : isStrToolResultB b = true) :
    ∃ cid s, b = mkToolResult ⟨cid, none, .str s⟩ := by
  unfold isStrToolResultB at h
  rcases hbt : b.tool_result with _ | tr
  · rw [hbt] at h
    exact Bool.noConfusion h
  · rw [hbt] at h
    simp only [Bool.and_eq_true, beq_iff_eq] at h
    obtain ⟨⟨hb, hname⟩, hout⟩ := h
    rcases hos : tr.output with _ | _ | _ | s | _ | _ <;> rw [hos] at hout <;>
      try exact Bool.noConfusion hout
    refine ⟨tr.call_id, s, ?_⟩
    rw [hb]
    unfold mkToolResult
    congr 1
    obtain ⟨cid, name, output⟩ := tr
    simp_all

theorem isImageB_spec {b : InternalContentBlock} (h : isImageB b = true) :
    ∃ url detail, b = mkImage ⟨url, detail⟩ ∧ url ≠ "" ∧ detail ≠ some "" := by
  unfold isImageB at h
  rcases hbt : b.image_url with _ | im
  · rw [hbt] at h
    exact Bool.noConfusion h
  · rw [hbt] at h
    simp only [Bool.and_eq_true, beq_iff_eq, bne_iff_ne, ne_eq] at h
    exact ⟨im.url, im.detail, by rw [h.1.1], h.1.2, h.2⟩

/-!  Claude round-trip lemmas. -/

theorem strIntercalate_single (sep t : String) : String.intercalate sep [t] = t := by
  unfold String.intercalate String.intercalate.go
  rfl

theorem claude_block_rt {b : InternalContentBlock} (hb : admClaudeBlock b = true) :
    ∃ p, renderClaudePart b = some p ∧ parseClaudePart p = some b := by
  unfold admClaudeBlock at hb
  simp only [Bool.or_eq_true] at hb
  rcases hb with (ht | htc) | htr
  · obtain ⟨t, rfl, hne⟩ := isTextB_spec ht
    exact ⟨.obj [("type", .str "text"), ("text", .str t)],
      by simp [renderClaudePart, mkText, hne],
      by simp [parseClaudePart, mkText, Json.asObjD, Json.getKey, Json.asStrD]⟩
  · obtain ⟨tc, rfl⟩ := isToolCallB_spec htc
    exact ⟨.obj [("type", .str "tool_use"), ("id", .str tc.id), ("name", .str tc.name),
        ("input", .obj tc.arguments)],
      by simp [renderClaudePart, mkToolCall],
      by simp [parseClaudePart, mkToolCall, Json.asObjD, Json.getKey, Json.asStrD]⟩
  · obtain ⟨cid, s, rfl⟩ := isStrToolResultB_spec htr
    refine ⟨.obj [("type", .str "tool_result"), ("tool_use_id", .str cid),
        ("content", .arr [.obj [("type", .str "text"), ("text", .str s)]])],
      by simp [renderClaudePart, mkToolResult], ?_⟩
    simp [parseClaudePart, mkToolResult, Json.asObjD, Json.getKey, Json.asStrD,
      strIntercalate_single]

theorem claude_content_rt {l : List InternalContentBlock}
    (hl : ∀ b ∈ l, admClaudeBlock b = true) :
    (l.filterMap renderClaudePart).filterMap parseClaudePart = l ∧
    (l.filterMap renderClaudePart).isEmpty = l.isEmpty := by
  induction l with
  | nil => simp
  | cons b t ih =>
    obtain ⟨p, hrp, hpp⟩ := claude_block_rt (hl b (by simp))
    obtain ⟨iht, _⟩ := ih (fun b' hb' => hl b' (by simp [hb']))
    rw [List.filterMap_cons_some hrp, List.filterMap_cons_some hpp, iht]
    exact ⟨rfl, by simp⟩

theorem admClaudeMsg_role {m : InternalMessage} (h : admClaudeMsg m = true) :
    m.role = "user" ∨ m.role = "assistant" := by
  unfold admClaudeMsg at h
  simp only [Bool.and_eq_true, Bool.or_eq_true, beq_iff_eq] at h
  exact h.1.1

theorem claude_msg_rt {m : InternalMessage} (hm : admClaudeMsg m = true) :
    renderClaudeMessage m =
      [.obj [("role", .str m.role),
             ("content", .arr (m.content.filterMap renderClaudePart))]] ∧
    parseClaudeMessage (.obj [("role", .str m.role),
        ("content", .arr (m.content.filterMap renderClaudePart))]) = m := by
  obtain ⟨mrole, mcontent⟩ := m
  have hrole : mrole = "user" ∨ mrole = "assistant" := admClaudeMsg_role hm
  unfold admClaudeMsg at hm
  simp only [Bool.and_eq_true, List.all_eq_true] at hm
  obtain ⟨⟨-, hne⟩, hblocks⟩ := hm
  obtain ⟨hcrt, hemp⟩ := claude_content_rt (l := mcontent) (by simpa using hblocks)
  have hnotempty : mcontent.isEmpty = false := by simpa using hne
  have hempty : (mcontent.filterMap renderClaudePart).isEmpty = false := by
    rw [hemp]
    exact hnotempty
  constructor
  · unfold renderClaudeMessage
    rw [if_pos (by simp [hempty])]
    rcases hrole with h | h <;> subst h <;> simp
  · rcases hrole with h | h <;> subst h <;>
      simp [parseClaudeMessage, Json.asObjD, Json.getKey, hcrt, hnotempty]

theorem claude_msgs_rt {l : List InternalMessage} (hl : ∀ m ∈ l, admClaudeMsg m = true) :
    (l.flatMap renderClaudeMessage).map parseClaudeMessage = l := by
  induction l with
  | nil => simp
  | cons m t ih =>
    obtain ⟨hr, hp⟩ := claude_msg_rt (hl m (by simp))
    rw [List.flatMap_cons, hr]
    simp only [List.cons_append, List.nil_append, List.map_cons]
    rw [hp, ih (fun m' hm' => hl m' (by simp [hm']))]

theorem claude_filter_system {l : List InternalMessage}
    (hl : ∀ m ∈ l, admClaudeMsg m = true) :
    l.filter (fun m => m.role = "system") = [] ∧
    l.filter (fun m => m.role ≠ "system") = l := by
  constructor
  · rw [List.filter_eq_nil_iff]
    intro m hm
    rcases admClaudeMsg_role (hl m hm) with h | h <;> simp [h]
  · rw [List.filter_eq_self]
    intro m hm
    rcases admClaudeMsg_role (hl m hm) with h | h <;> simp [h]

theorem claude_tool_rt (t : InternalTool) : parseClaudeTool (renderClaudeTool t) = t := by
  obtain ⟨name, desc, schema⟩ := t
  rcases desc with _ | d <;>
    simp [parseClaudeTool, renderClaudeTool, Json.asObjD, Json.getKey, Json.asStrD,
      Json.asStrOpt]

theorem claude_body_getKeys (model : String) (stream : Bool) (sys tools tc : Option Json)
    (msgsV : Json) (extra : Jobj)
    (hextra : ∀ kv ∈ extra, kv.1 ∉
      (["system", "messages", "model", "stream", "tools", "tool_choice"] : List String))
    (body : Jobj)
    (hbody : body = ([("model", Json.str model), ("stream", Json.bool stream)] ++
      optSeg "system" sys ++ [("messages", msgsV)] ++ optSeg "tools" tools ++
      optSeg "tool_choice" tc) ++ extra) :
    Json.getKey body "model" = some (.str model) ∧
    Json.getKey body "stream" = some (.bool stream) ∧
    Json.getKey body "system" = sys ∧
    Json.getKey body "messages" = some msgsV ∧
    Json.getKey body "tools" = tools ∧
    Json.getKey body "tool_choice" = tc ∧
    body.filter (fun kv => kv.1 ∉
      (["system", "messages", "model", "stream", "tools", "tool_choice"] : List String)) =
      extra := by
  have hxnone : ∀ k ∈ (["system", "messages", "model", "stream", "tools",
      "tool_choice"] : List String), Json.getKey extra k = none := by
    intro k hk
    exact getKey_eq_none_of_keys (fun kv hkv heq => hextra kv hkv (heq ▸ hk))
  subst hbody
  simp only [List.append_assoc, List.cons_append, List.nil_append]
  refine ⟨?_, ?_, ?_, ?_, ?_, ?_, ?_⟩
  · rw [getKey_cons_self]
  · rw [getKey_cons_ne _ _ _ _ (by decide), getKey_cons_self]
  · rw [getKey_cons_ne _ _ _ _ (by decide), getKey_cons_ne _ _ _ _ (by decide)]
    rcases sys with _ | sv
    · rw [show optSeg "system" (none : Option Json) = [] from rfl, List.nil_append,
        getKey_cons_ne _ _ _ _ (by decide),
        getKey_append_none _ (getKey_optSeg_ne "tools" "system" tools (by decide)),
        getKey_append_none _ (getKey_optSeg_ne "tool_choice" "system" tc (by decide))]
      exact hxnone "system" (by decide)
    · rw [show optSeg "system" (some sv) = [("system", sv)] from rfl,
        List.singleton_append, getKey_cons_self]
  · rw [getKey_cons_ne _ _ _ _ (by decide), getKey_cons_ne _ _ _ _ (by decide),
      getKey_append_none _ (getKey_optSeg_ne "system" "messages" sys (by decide)),
      getKey_cons_self]
  · rw [getKey_cons_ne _ _ _ _ (by decide), getKey_cons_ne _ _ _ _ (by decide),
      getKey_append_none _ (getKey_optSeg_ne "system" "tools" sys (by decide)),
      getKey_cons_ne _ _ _ _ (by decide)]
    rcases tools with _ | tv
    · rw [show optSeg "tools" (none : Option Json) = [] from rfl, List.nil_append,
        getKey_append_none _ (getKey_optSeg_ne "tool_choice" "tools" tc (by decide))]
      exact hxnone "tools" (by decide)
    · rw [show optSeg "tools" (some tv) = [("tools", tv)] from rfl,
        List.singleton_append, getKey_cons_self]
  · rw [getKey_cons_ne _ _ _ _ (by decide), getKey_cons_ne _ _ _ _ (by decide),
      getKey_append_none _ (getKey_optSeg_ne "system" "tool_choice" sys (by decide)),
      getKey_cons_ne _ _ _ _ (by decide),
      getKey_append_none _ (getKey_optSeg_ne "tools" "tool_choice" tools (by decide))]
    rcases tc with _ | tcv
    · rw [show optSeg "tool_choice" (none : Option Json) = [] from rfl]
      exact hxnone "tool_choice" (by decide)
    · rw [show optSeg "tool_choice" (some tcv) = [("tool_choice", tcv)] from rfl,
        List.singleton_append, getKey_cons_self]
  · have hsys : (optSeg "system" sys).filter (fun kv => kv.1 ∉
        (["system", "messages", "model", "stream", "tools", "tool_choice"] :
          List String)) = [] := by
      rw [List.filter_eq_nil_iff]
      intro kv hkv
      rw [mem_optSeg hkv]
      decide
    have htools : (optSeg "tools" tools).filter (fun kv => kv.1 ∉
        (["system", "messages", "model", "stream", "tools", "tool_choice"] :
          List String)) = [] := by
      rw [List.filter_eq_nil_iff]
      intro kv hkv
      rw [mem_optSeg hkv]
      decide
    have htc : (optSeg "tool_choice" tc).filter (fun kv => kv.1 ∉
        (["system", "messages", "model", "stream", "tools", "tool_choice"] :
          List String)) = [] := by
      rw [List.filter_eq_nil_iff]
      intro kv hkv
      rw [mem_optSeg hkv]
      decide
    rw [List.filter_cons_of_neg (by simp), List.filter_cons_of_neg (by simp),
      List.filter_append, hsys, List.nil_append, List.filter_cons_of_neg (by simp),
      List.filter_append, htools, List.nil_append, List.filter_append, htc,
      List.nil_append, List.filter_eq_self.mpr (fun kv hkv => by simpa using hextra kv hkv)]

theorem to_claude_chat_eq (N : InternalChatRequest) :
    to_claude_chat N = Json.updateAssoc
      ([("model", Json.str N.model), ("stream", Json.bool N.stream)] ++
        optSeg "system"
          (if !(N.messages.filter (fun m => m.role = "system")).isEmpty ∧
              !(claudeSystemTexts N).isEmpty
           then some (.str (String.intercalate "\n" (claudeSystemTexts N))) else none) ++
        [("messages", Json.arr ((N.messages.filter (fun m => m.role ≠ "system")).flatMap
            renderClaudeMessage))] ++
        optSeg "tools" (if !N.tools.isEmpty
          then some (.arr (N.tools.map renderClaudeTool)) else none) ++
        optSeg "tool_choice" N.tool_choice) N.extra := by
  simp only [to_claude_chat, claudeSystemTexts]
  split_ifs <;> rfl

theorem claude_base_keys (model : String) (stream : Bool) (sys tools tc : Option Json)
    (msgsV : Json) :
    ∀ kv ∈ ([("model", Json.str model), ("stream", Json.bool stream)] ++
      optSeg "system" sys ++ [("messages", msgsV)] ++ optSeg "tools" tools ++
      optSeg "tool_choice" tc),
      kv.1 ∈ (["system", "messages", "model", "stream", "tools", "tool_choice"] :
        List String) := by
  intro kv h
  simp only [List.append_assoc, List.cons_append, List.nil_append, List.mem_cons,
    List.mem_append] at h
  rcases h with rfl | rfl | h | rfl | h | h
  · simp
  · simp
  · rw [mem_optSeg h]
    simp
  · simp
  · rw [mem_optSeg h]
    simp
  · rw [mem_optSeg h]
    simp

theorem from_to_claude {N : InternalChatRequest} (hadm : admissible_claude N = true) :
    _from_claude_chat (to_claude_chat N) = N := by
  obtain ⟨msgs, model, stream, tools, tcho, extra⟩ := N
  unfold admissible_claude at hadm
  simp only [Bool.and_eq_true] at hadm
  obtain ⟨⟨⟨hmsgs, htc⟩, hnodup⟩, hextra⟩ := hadm
  replace hnodup : (extra.map Prod.fst).Nodup := of_decide_eq_true hnodup
  replace hextra : ∀ kv ∈ extra, kv.1 ∉
      (["system", "messages", "model", "stream", "tools", "tool_choice"] :
        List String) := by
    rw [List.all_eq_true] at hextra
    exact fun kv hkv => of_decide_eq_true (hextra kv hkv)
  have main : ∀ (sysPart rest : List InternalMessage),
      msgs = sysPart ++ rest →
      msgs.filter (fun m => m.role ≠ "system") = rest →
      (∀ m ∈ rest, admClaudeMsg m = true) →
      parseClaudeSystem (if !(msgs.filter (fun m => m.role = "system")).isEmpty ∧
          !(claudeSystemTexts ⟨msgs, model, stream, tools, tcho, extra⟩).isEmpty
        then some (.str (String.intercalate "\n"
          (claudeSystemTexts ⟨msgs, model, stream, tools, tcho, extra⟩))) else none) =
        sysPart →
      _from_claude_chat (to_claude_chat ⟨msgs, model, stream, tools, tcho, extra⟩) =
        ⟨msgs, model, stream, tools, tcho, extra⟩ := by
    intro sysPart rest hmsplit hfilO hrestall hsysval
    have hbody : to_claude_chat ⟨msgs, model, stream, tools, tcho, extra⟩ =
        ([("model", Json.str model), ("stream", Json.bool stream)] ++
          optSeg "system"
            (if !(msgs.filter (fun m => m.role = "system")).isEmpty ∧
                !(claudeSystemTexts ⟨msgs, model, stream, tools, tcho, extra⟩).isEmpty
             then some (.str (String.intercalate "\n"
               (claudeSystemTexts ⟨msgs, model, stream, tools, tcho, extra⟩))) else none) ++
          [("messages", Json.arr ((msgs.filter (fun m => m.role ≠ "system")).flatMap
              renderClaudeMessage))] ++
          optSeg "tools" (if !tools.isEmpty
            then some (.arr (tools.map renderClaudeTool)) else none) ++
          optSeg "tool_choice" tcho) ++ extra := by
      rw [to_claude_chat_eq]
      exact updateAssoc_fresh _ _ hnodup
        (fun kv hkv p hp heq => hextra kv hkv (heq ▸ claude_base_keys _ _ _ _ _ _ p hp))
    obtain ⟨hgM, hgS, hgSys, hgMsgs, hgT, hgTc, hgF⟩ :=
      claude_body_getKeys model stream _ _ tcho _ extra hextra _ hbody
    unfold _from_claude_chat
    simp only [InternalChatRequest.mk.injEq]
    refine ⟨?_, ?_, ?_, ?_, ?_, ?_⟩
    · rw [hgSys, hgMsgs, hsysval]
      simp only [Json.asArrD]
      rw [hfilO, claude_msgs_rt hrestall, hmsplit]
    · rw [hgM]
      rfl
    · rw [hgS]
    · rw [hgT]
      rcases tools with _ | ⟨t0, ts⟩
      · rfl
      · rw [if_pos (by simp)]
        simp only [Json.asArrD, List.map_map]
        rw [show parseClaudeTool ∘ renderClaudeTool = id from funext claude_tool_rt,
          List.map_id]
    · rw [hgTc]
      rcases tcho with _ | v
      · rfl
      · cases v <;> first
          | rfl
          | exact absurd htc (by simp)
    · exact hgF
  rcases msgs with _ | ⟨⟨r0, c0⟩, rest⟩
  · exact main [] [] rfl rfl (by simp) (by simp [claudeSystemTexts, parseClaudeSystem])
  · by_cases h0 : r0 = "system"
    · subst h0
      simp only [show (("system" : String) == "system") = true from rfl, if_true] at hmsgs
      rcases hc : c0 with _ | ⟨b, _ | ⟨b2, tl2⟩⟩ <;> rw [hc] at hmsgs <;>
        try exact Bool.noConfusion hmsgs
      simp only [Bool.and_eq_true] at hmsgs
      obtain ⟨htb, hrestall⟩ := hmsgs
      obtain ⟨t, rfl, htne⟩ := isTextB_spec htb
      subst hc
      replace hrestall : ∀ m ∈ rest, admClaudeMsg m = true := by
        rw [List.all_eq_true] at hrestall
        exact hrestall
      have hfilS : ((⟨"system", [mkText t]⟩ : InternalMessage) :: rest).filter
          (fun m => m.role = "system") = [⟨"system", [mkText t]⟩] := by
        rw [List.filter_cons_of_pos (by simp)]
        rw [(claude_filter_system hrestall).1]
      have hfilO : ((⟨"system", [mkText t]⟩ : InternalMessage) :: rest).filter
          (fun m => m.role ≠ "system") = rest := by
        rw [List.filter_cons_of_neg (by simp)]
        exact (claude_filter_system hrestall).2
      have hst : claudeSystemTexts ⟨(⟨"system", [mkText t]⟩ : InternalMessage) :: rest,
          model, stream, tools, tcho, extra⟩ = [t] := by
        unfold claudeSystemTexts
        simp only
        rw [hfilS, List.flatMap_cons, List.flatMap_nil]
        simp only [List.append_nil]
        exact strFilterMap_textTruthy t htne
      refine main [⟨"system", [mkText t]⟩] rest rfl hfilO hrestall ?_
      rw [hst, hfilS, if_pos (by simp), strIntercalate_single]
      simp [parseClaudeSystem, Json.truthy, htne]
    · simp only [show (r0 == "system") = false from by simp [h0], Bool.false_eq_true,
        if_false] at hmsgs
      replace hmsgs : ∀ m ∈ (⟨r0, c0⟩ : InternalMessage) :: rest, admClaudeMsg m = true := by
        rw [List.all_eq_true] at hmsgs
        exact hmsgs
      refine main [] ((⟨r0, c0⟩ : InternalMessage) :: rest) rfl
        (claude_filter_system hmsgs).2 hmsgs ?_
      rw [(claude_filter_system hmsgs).1]
      simp [parseClaudeSystem]

/-!  OpenAI round-trip lemmas. -/

theorem openai_body_getKeys (model : String) (stream : Bool) (tools tc : Option Json)
    (msgsV : Json) (extra : Jobj)
    (hextra : ∀ kv ∈ extra, kv.1 ∉
      (["messages", "model", "stream", "tools", "tool_choice"] : List String))
    (body : Jobj)
    (hbody : body = ([("model", Json.str model), ("messages", msgsV),
      ("stream", Json.bool stream)] ++ optSeg "tools" tools ++
      optSeg "tool_choice" tc) ++ extra) :
    Json.getKey body "model" = some (.str model) ∧
    Json.getKey body "messages" = some msgsV ∧
    Json.getKey body "stream" = some (.bool stream) ∧
    Json.getKey body "tools" = tools ∧
    Json.getKey body "tool_choice" = tc ∧
    body.filter (fun kv => kv.1 ∉
      (["messages", "model", "stream", "tools", "tool_choice"] : List String)) =
      extra := by
  have hxnone : ∀ k ∈ (["messages", "model", "stream", "tools",
      "tool_choice"] : List String), Json.getKey extra k = none := by
    intro k hk
    exact getKey_eq_none_of_keys (fun kv hkv heq => hextra kv hkv (heq ▸ hk))
  subst hbody
  simp only [List.append_assoc, List.cons_append, List.nil_append]
  refine ⟨?_, ?_, ?_, ?_, ?_, ?_⟩
  · rw [getKey_cons_self]
  · rw [getKey_cons_ne _ _ _ _ (by decide), getKey_cons_self]
  · rw [getKey_cons_ne _ _ _ _ (by decide), getKey_cons_ne _ _ _ _ (by decide),
      getKey_cons_self]
  · rw [getKey_cons_ne _ _ _ _ (by decide), getKey_cons_ne _ _ _ _ (by decide),
      getKey_cons_ne _ _ _ _ (by decide)]
    rcases tools with _ | tv
    · rw [show optSeg "tools" (none : Option Json) = [] from rfl, List.nil_append,
        getKey_append_none _ (getKey_optSeg_ne "tool_choice" "tools" tc (by decide))]
      exact hxnone "tools" (by decide)
    · rw [show optSeg "tools" (some tv) = [("tools", tv)] from rfl,
        List.singleton_append, getKey_cons_self]
  · rw [getKey_cons_ne _ _ _ _ (by decide), getKey_cons_ne _ _ _ _ (by decide),
      getKey_cons_ne _ _ _ _ (by decide),
      getKey_append_none _ (getKey_optSeg_ne "tools" "tool_choice" tools (by decide))]
    rcases tc with _ | tcv
    · rw [show optSeg "tool_choice" (none : Option Json) = [] from rfl]
      exact hxnone "tool_choice" (by decide)
    · rw [show optSeg "tool_choice" (some tcv) = [("tool_choice", tcv)] from rfl,
        List.singleton_append, getKey_cons_self]
  · have htools : (optSeg "tools" tools).filter (fun kv => kv.1 ∉
        (["messages", "model", "stream", "tools", "tool_choice"] : List String)) = [] := by
      rw [List.filter_eq_nil_iff]
      intro kv hkv
      rw [mem_optSeg hkv]
      decide
    have htc : (optSeg "tool_choice" tc).filter (fun kv => kv.1 ∉
        (["messages", "model", "stream", "tools", "tool_choice"] : List String)) = [] := by
      rw [List.filter_eq_nil_iff]
      intro kv hkv
      rw [mem_optSeg hkv]
      decide
    rw [List.filter_cons_of_neg (by simp), List.filter_cons_of_neg (by simp),
      List.filter_cons_of_neg (by simp), List.filter_append, htools, List.nil_append,
      List.filter_append, htc, List.nil_append,
      List.filter_eq_self.mpr (fun kv hkv => by simpa using hextra kv hkv)]

theorem openai_base_keys (model : String) (stream : Bool) (tools tc : Option Json)
    (msgsV : Json) :
    ∀ kv ∈ ([("model", Json.str model), ("messages", msgsV),
      ("stream", Json.bool stream)] ++ optSeg "tools" tools ++ optSeg "tool_choice" tc),
      kv.1 ∈ (["messages", "model", "stream", "tools", "tool_choice"] : List String) := by
  intro kv h
  simp only [List.append_assoc, List.cons_append, List.nil_append, List.mem_cons,
    List.mem_append] at h
  rcases h with rfl | rfl | rfl | h | h
  · simp
  · simp
  · simp
  · rw [mem_optSeg h]
    simp
  · rw [mem_optSeg h]
    simp

theorem to_openai_chat_eq (N : InternalChatRequest) :
    to_openai_chat N = Json.updateAssoc
      ([("model", Json.str N.model),
        ("messages", Json.arr (N.messages.flatMap renderOpenaiMessage)),
        ("stream", Json.bool N.stream)] ++
        optSeg "tools" (if !N.tools.isEmpty
          then some (.arr (N.tools.map renderOpenaiTool)) else none) ++
        optSeg "tool_choice" N.tool_choice) N.extra := by
  simp only [to_openai_chat]
  split_ifs <;> rfl

theorem openai_tool_rt (t : InternalTool) : parseOpenaiTool (renderOpenaiTool t) = some t := by
  obtain ⟨name, desc, schema⟩ := t
  rcases desc with _ | d <;>
    simp [parseOpenaiTool, renderOpenaiTool, Json.asObjD, Json.getKey, Json.asStrD,
      Json.asStrOpt]

theorem openai_toolcall_rt {tc : InternalToolCall}
    (hser : parseJson (dumpsJson (.obj tc.arguments)) = some (.obj tc.arguments)) :
    parseOpenaiToolCall (renderOpenaiToolCall tc) = mkToolCall tc := by
  obtain ⟨id, name, args⟩ := tc
  simp only at hser
  simp [parseOpenaiToolCall, renderOpenaiToolCall, Json.asObjD, Json.getKey,
    Json.asStrD, hser]

theorem openai_part_rt {b : InternalContentBlock}
    (h : (isAnyTextB b || isImageB b) = true) :
    ∃ p, renderOpenaiPart b = some p ∧ parseOpenaiPart p = some b := by
  simp only [Bool.or_eq_true] at h
  rcases h with ht | hi
  · obtain ⟨t, rfl⟩ := isAnyTextB_spec ht
    refine ⟨.obj [("type", .str "text"), ("text", .str t)],
      by simp [renderOpenaiPart, mkText], ?_⟩
    by_cases htt : t = "" <;>
      simp [parseOpenaiPart, mkText, Json.asObjD, Json.getKey, Json.asStrD,
        Json.truthy, htt]
  · obtain ⟨url, detail, rfl, hurl, hdet⟩ := isImageB_spec hi
    rcases detail with _ | d
    · refine ⟨.obj [("type", .str "image_url"),
        ("image_url", .obj [("url", .str url)])],
        by simp [renderOpenaiPart, mkImage], ?_⟩
      simp [parseOpenaiPart, mkImage, Json.asObjD, Json.getKey, Json.asStrD,
        Json.asStrOpt, hurl]
    · have hd : d ≠ "" := by simpa using hdet
      refine ⟨.obj [("type", .str "image_url"),
        ("image_url", .obj [("url", .str url), ("detail", .str d)])],
        by simp [renderOpenaiPart, mkImage, hd], ?_⟩
      simp [parseOpenaiPart, mkImage, Json.asObjD, Json.getKey, Json.asStrD,
        Json.asStrOpt, hurl]

theorem ser_tcs_struct {l : List InternalContentBlock}
    (h : ∀ b ∈ l, isSerToolCallB b = true) :
    l = (l.filterMap (fun b => b.tool_call)).map mkToolCall ∧
    (∀ tc ∈ l.filterMap (fun b => b.tool_call),
      parseJson (dumpsJson (.obj tc.arguments)) = some (.obj tc.arguments)) := by
  induction l with
  | nil => simp
  | cons b t ih =>
    have hb := h b (by simp)
    obtain ⟨tc, rfl, hser⟩ := isSerToolCallB_spec hb
    obtain ⟨ih1, ih2⟩ := ih (fun b' hb' => h b' (by simp [hb']))
    constructor
    · rw [List.filterMap_cons_some (rfl : (mkToolCall tc).tool_call = some tc),
        List.map_cons]
      exact congrArg _ ih1
    · intro tc' htc'
      rw [List.filterMap_cons_some (rfl : (mkToolCall tc).tool_call = some tc)] at htc'
      rcases List.mem_cons.mp htc' with rfl | htc'
      · exact hser
      · exact ih2 tc' htc'

theorem openai_parts_rt {l : List InternalContentBlock}
    (hl : ∀ b ∈ l, (isAnyTextB b || isImageB b) = true) :
    (l.filterMap renderOpenaiPart).filterMap parseOpenaiPart = l ∧
    (l.filterMap renderOpenaiPart).isEmpty = l.isEmpty := by
  induction l with
  | nil => simp
  | cons b t ih =>
    obtain ⟨p, hrp, hpp⟩ := openai_part_rt (hl b (by simp))
    obtain ⟨iht, _⟩ := ih (fun b' hb' => hl b' (by simp [hb']))
    rw [List.filterMap_cons_some hrp, List.filterMap_cons_some hpp, iht]
    exact ⟨rfl, by simp⟩

theorem openai_toolcalls_rt {tcl : List InternalToolCall}
    (h : ∀ tc ∈ tcl, parseJson (dumpsJson (.obj tc.arguments)) = some (.obj tc.arguments)) :
    (tcl.map renderOpenaiToolCall).map parseOpenaiToolCall = tcl.map mkToolCall := by
  induction tcl with
  | nil => rfl
  | cons tc t ih =>
    simp only [List.map_cons]
    rw [openai_toolcall_rt (h tc (by simp)), ih (fun tc' htc' => h tc' (by simp [htc']))]

theorem openai_msg_rt {m : InternalMessage} (hm : admOpenaiMsg m = true) :
    ∃ p, renderOpenaiMessage m = [p] ∧ parseOpenaiMessage p = m := by
  obtain ⟨role, content⟩ := m
  unfold admOpenaiMsg at hm
  simp only [Bool.and_eq_true] at hm
  obtain ⟨⟨hrole, htcs⟩, hshape⟩ := hm
  have hrole' : (role = "system" ∨ role = "user") ∨ role = "assistant" := by
    simpa using hrole
  have hrt : role ≠ "tool" := by rcases hrole' with (h | h) | h <;> simp [h]
  obtain ⟨front, tcs, hsplit, hfrontP, htcsP, hshape'⟩ :
      ∃ front tcs, content = front ++ tcs ∧
        (∀ b ∈ front, ¬ b.type = "tool_call") ∧
        (∀ b ∈ tcs, isSerToolCallB b = true) ∧
        (if front.any (fun b => b.type == "image_url") then
          front.all (fun b => isAnyTextB b || isImageB b)
         else
          match front with
          | [] => !tcs.isEmpty
          | [b] => isAnyTextB b && (tcs.isEmpty || b.text != some "")
          | _ => false) = true := by
    refine ⟨content.takeWhile (fun b => b.type != "tool_call"),
      content.dropWhile (fun b => b.type != "tool_call"),
      (List.takeWhile_append_dropWhile _ _).symm, ?_, ?_, hshape⟩
    · intro b hb
      simpa using List.mem_takeWhile_imp hb
    · rw [List.all_eq_true] at htcs
      exact htcs
  subst hsplit
  obtain ⟨htcstruct, htclser⟩ := ser_tcs_struct htcsP
  obtain ⟨tcl, rfl⟩ : ∃ tcl : List InternalToolCall, tcs = tcl.map mkToolCall :=
    ⟨_, htcstruct⟩
  replace htclser : ∀ tc ∈ tcl,
      parseJson (dumpsJson (.obj tc.arguments)) = some (.obj tc.arguments) := by
    intro tc htc
    refine htclser tc ?_
    have hback : (tcl.map mkToolCall).filterMap (fun b => b.tool_call) = tcl := by
      rw [List.filterMap_map,
        show ((fun (b : InternalContentBlock) => b.tool_call) ∘ mkToolCall) = some from
          funext (fun _ => rfl)]
      exact List.filterMap_some tcl
    rw [hback]
    exact htc
  have hsel_text : (tcl.map mkToolCall).filterMap
      (fun b => if b.type = "text" then b.text else none) = [] := by
    rw [List.filterMap_map]
    exact List.filterMap_eq_nil_iff.mpr (by intro tc _; rfl)
  have hsel_tc : (tcl.map mkToolCall).filterMap
      (fun b => if b.type = "tool_call" then b.tool_call else none) = tcl := by
    rw [List.filterMap_map,
      show ((fun (b : InternalContentBlock) =>
          if b.type = "tool_call" then b.tool_call else none) ∘ mkToolCall) = some from
        funext (fun _ => rfl)]
    exact List.filterMap_some tcl
  have hsel_tr : (tcl.map mkToolCall).filterMap
      (fun b => if b.type = "tool_result" then b.tool_result else none) = [] := by
    rw [List.filterMap_map]
    exact List.filterMap_eq_nil_iff.mpr (by intro tc _; rfl)
  have hsel_im : (tcl.map mkToolCall).filterMap
      (fun b => if b.type = "image_url" then b.image_url else none) = [] := by
    rw [List.filterMap_map]
    exact List.filterMap_eq_nil_iff.mpr (by intro tc _; rfl)
  have hsel_part : (tcl.map mkToolCall).filterMap renderOpenaiPart = [] := by
    rw [List.filterMap_map]
    exact List.filterMap_eq_nil_iff.mpr (by intro tc _; rfl)
  have hfrontsel_tc : front.filterMap
      (fun b => if b.type = "tool_call" then b.tool_call else none) = [] :=
    List.filterMap_eq_nil_iff.mpr (fun b hb => by rw [if_neg (hfrontP b hb)])
  by_cases himg : front.any (fun b => b.type == "image_url") = true
  · -- message with image blocks: content is rendered as a parts array
    rw [if_pos himg] at hshape'
    have hfa : ∀ b ∈ front, (isAnyTextB b || isImageB b) = true := by
      rw [List.all_eq_true] at hshape'
      exact hshape'
    have hfrontsel_tr : front.filterMap
        (fun b => if b.type = "tool_result" then b.tool_result else none) = [] := by
      refine List.filterMap_eq_nil_iff.mpr (fun b hb => ?_)
      rcases Bool.or_eq_true _ _ |>.mp (hfa b hb) with ht | hi
      · obtain ⟨t, rfl⟩ := isAnyTextB_spec ht
        rfl
      · obtain ⟨u, d, rfl, -, -⟩ := isImageB_spec hi
        rfl
    obtain ⟨hparts, hpartsne⟩ := openai_parts_rt hfa
    have hfne : front ≠ [] := by
      rw [List.any_eq_true] at himg
      obtain ⟨b, hb, -⟩ := himg
      exact List.ne_nil_of_mem hb
    have himgne : (front.filterMap
        (fun b => if b.type = "image_url" then b.image_url else none)).isEmpty = false := by
      rw [List.any_eq_true] at himg
      obtain ⟨b, hb, hbty⟩ := himg
      rcases Bool.or_eq_true _ _ |>.mp (hfa b hb) with ht | hi
      · obtain ⟨t, rfl⟩ := isAnyTextB_spec ht
        exact absurd hbty (by simp [mkText])
      · obtain ⟨u, d, rfl, -, -⟩ := isImageB_spec hi
        have : (⟨u, d⟩ : InternalImageBlock) ∈ front.filterMap
            (fun b => if b.type = "image_url" then b.image_url else none) :=
          List.mem_filterMap.mpr ⟨_, hb, rfl⟩
        simpa using List.ne_nil_of_mem this
    have hpartsnonempty : (front.filterMap renderOpenaiPart).isEmpty = false := by
      rw [hpartsne]
      simpa using hfne
    refine ⟨.obj ([("role", .str role)] ++
      [("content", .arr (front.filterMap renderOpenaiPart))] ++
      (if !tcl.isEmpty then
        [("tool_calls", .arr (tcl.map renderOpenaiToolCall))] else [])), ?_, ?_⟩
    · unfold renderOpenaiMessage
      simp only [List.filterMap_append, hsel_text, hsel_tc, hsel_tr, hsel_im, hsel_part,
        hfrontsel_tc, hfrontsel_tr, List.append_nil, List.nil_append, List.map_nil]
      rw [if_pos (by simpa using hrt), if_pos (by simp [himgne]),
        if_neg (by simp [hpartsnonempty])]
    · unfold parseOpenaiMessage
      rcases htcl : tcl with _ | ⟨tc0, tcrest⟩
      · simp [Json.asObjD, Json.getKey, Json.asArrD, Json.asStrD, hparts, hrt, hfne]
      · rw [← htcl]
        have htclne : tcl ≠ [] := by rw [htcl]; simp
        rw [if_pos (by simpa using htclne)]
        simp [Json.asObjD, Json.getKey, Json.asArrD, Json.asStrD, hparts, hrt, hfne,
          openai_toolcalls_rt htclser]
  · rw [if_neg himg] at hshape'
    rcases front with _ | ⟨b0, _ | ⟨b1, fr2⟩⟩
    · -- no text or image blocks: tool calls only
      have htclne : tcl ≠ [] := by
        simp only [] at hshape'
        simpa using hshape'
      refine ⟨.obj ([("role", .str role)] ++
        [("tool_calls", .arr (tcl.map renderOpenaiToolCall))]), ?_, ?_⟩
      · unfold renderOpenaiMessage
        simp only [List.nil_append, hsel_text, hsel_tc, hsel_tr, hsel_im]
        rw [if_pos (by simpa using hrt), if_neg (by simp), if_neg (by simp),
          if_neg (by simpa using htclne), if_pos (by simpa using htclne)]
        simp
      · unfold parseOpenaiMessage
        simp [Json.asObjD, Json.getKey, Json.asArrD, Json.asStrD, hrt, htclne,
          openai_toolcalls_rt htclser]
    · -- exactly one text block, then tool calls
      simp only [Bool.and_eq_true] at hshape'
      obtain ⟨hb0, hcond⟩ := hshape'
      obtain ⟨t, rfl⟩ := isAnyTextB_spec hb0
      have hseltext_front : ([mkText t] : List InternalContentBlock).filterMap
          (fun b => if b.type = "text" then b.text else none) = [t] := by
        simp [mkText]
      rcases htcl : tcl with _ | ⟨tc0, tcrest⟩
      · -- a single text block, no tool calls
        subst htcl
        refine ⟨.obj [("role", .str role), ("content", .str t)], ?_, ?_⟩
        · unfold renderOpenaiMessage
          simp only [List.map_nil, List.append_nil, hseltext_front]
          rw [if_pos (by simpa using hrt)]
          simp [mkText, strIntercalate_single]
        · unfold parseOpenaiMessage
          by_cases ht : t = "" <;>
            simp [Json.asObjD, Json.getKey, Json.asArrD, Json.asStrD, hrt, ht, mkText]
      · rw [← htcl]
        have htclne : tcl ≠ [] := by rw [htcl]; simp
        have htne : t ≠ "" := by
          rcases Bool.or_eq_true _ _ |>.mp hcond with h | h
          · exact absurd (by simpa using h) (by simpa using htclne)
          · simpa [mkText] using h
        refine ⟨.obj [("role", .str role), ("content", .str t),
          ("tool_calls", .arr (tcl.map renderOpenaiToolCall))], ?_, ?_⟩
        · unfold renderOpenaiMessage
          simp only [List.filterMap_append, hsel_text, hsel_tc, hsel_tr, hsel_im,
            hseltext_front, List.append_nil, List.nil_append,
            show ([mkText t] : List InternalContentBlock).filterMap
              (fun b => if b.type = "tool_call" then b.tool_call else none) = [] from rfl,
            show ([mkText t] : List InternalContentBlock).filterMap
              (fun b => if b.type = "tool_result" then b.tool_result else none) = [] from rfl,
            show ([mkText t] : List InternalContentBlock).filterMap
              (fun b => if b.type = "image_url" then b.image_url else none) = [] from rfl]
          rw [if_pos (by simpa using hrt), if_neg (by simp), if_pos (by simp),
            if_pos (by simpa using htclne)]
          simp [strIntercalate_single]
        · unfold parseOpenaiMessage
          simp [Json.asObjD, Json.getKey, Json.asArrD, Json.asStrD, hrt, htne, mkText,
            openai_toolcalls_rt htclser]
    · exact absurd hshape' (by simp)

theorem openai_msgs_rt {l : List InternalMessage}
    (hl : ∀ m ∈ l, admOpenaiMsg m = true) :
    (l.flatMap renderOpenaiMessage).map parseOpenaiMessage = l := by
  induction l with
  | nil => rfl
  | cons m t ih =>
    obtain ⟨p, hrp, hpp⟩ := openai_msg_rt (hl m (by simp))
    rw [List.flatMap_cons, hrp, List.singleton_append, List.map_cons, hpp,
      ih (fun mm hmm => hl mm (by simp [hmm]))]

theorem from_to_openai {N : InternalChatRequest} (hadm : admissible_openai N = true) :
    from_openai_chat (to_openai_chat N) = N := by
  obtain ⟨msgs, model, stream, tools, tcho, extra⟩ := N
  unfold admissible_openai at hadm
  simp only [Bool.and_eq_true] at hadm
  obtain ⟨⟨⟨hmsgs, htc⟩, hnodup⟩, hextra⟩ := hadm
  replace hnodup : (extra.map Prod.fst).Nodup := of_decide_eq_true hnodup
  replace hextra : ∀ kv ∈ extra, kv.1 ∉
      (["messages", "model", "stream", "tools", "tool_choice"] : List String) := by
    rw [List.all_eq_true] at hextra
    exact fun kv hkv => of_decide_eq_true (hextra kv hkv)
  replace hmsgs : ∀ m ∈ msgs, admOpenaiMsg m = true := by
    rw [List.all_eq_true] at hmsgs
    exact hmsgs
  have hbody : to_openai_chat ⟨msgs, model, stream, tools, tcho, extra⟩ =
      ([("model", Json.str model),
        ("messages", Json.arr (msgs.flatMap renderOpenaiMessage)),
        ("stream", Json.bool stream)] ++
        optSeg "tools" (if !tools.isEmpty
          then some (.arr (tools.map renderOpenaiTool)) else none) ++
        optSeg "tool_choice" tcho) ++ extra := by
    rw [to_openai_chat_eq]
    exact updateAssoc_fresh _ _ hnodup
      (fun kv hkv p hp heq => hextra kv hkv (heq ▸ openai_base_keys _ _ _ _ _ p hp))
  obtain ⟨hgM, hgMsgs, hgS, hgT, hgTc, hgF⟩ :=
    openai_body_getKeys model stream _ tcho _ extra hextra _ hbody
  unfold from_openai_chat
  simp only [InternalChatRequest.mk.injEq]
  refine ⟨?_, ?_, ?_, ?_, ?_, ?_⟩
  · rw [hgMsgs]
    simp only [Json.asArrD]
    exact openai_msgs_rt hmsgs
  · rw [hgM]
    rfl
  · rw [hgS]
  · rw [hgT]
    rcases tools with _ | ⟨t0, ts⟩
    · rfl
    · rw [if_pos (by simp)]
      simp only [Json.asArrD, List.filterMap_map]
      rw [show parseOpenaiTool ∘ renderOpenaiTool = some from funext openai_tool_rt]
      exact List.filterMap_some _
  · rw [hgTc]
    rcases tcho with _ | v
    · rfl
    · cases v <;> first
        | rfl
        | exact absurd htc (by simp)
  · exact hgF

/-- C1: the concrete OpenAI body of the claim, converted with
`from_openai_chat` then `to_claude_chat`, is exactly the claimed
Claude body. -/
theorem c1_openai_to_claude_concrete :
    to_claude_chat (from_openai_chat
      [("model", .str "x"),
       ("messages", .arr [.obj [("role", .str "user"), ("content", .str "hello")]])]) =
    [("model", .str "x"), ("stream", .bool false),
     ("messages", .arr [.obj [("role", .str "user"),
       ("content", .arr [.obj [("type", .str "text"), ("text", .str "hello")]])]])] := by
  rfl

/-- C2 counterexample: a neutral request whose blocks are all in the
OpenAI adapter's supported set (two text blocks in one message) does
not survive the OpenAI round trip: the two texts are joined with a
newline into a single block. -/
theorem c2_counterexample :
    blocksSupported openaiSupportedTypes
      ⟨[⟨"user", [mkText "a", mkText "b"]⟩], "m", false, [], none, []⟩ = true ∧
    from_openai_chat (to_openai_chat
      ⟨[⟨"user", [mkText "a", mkText "b"]⟩], "m", false, [], none, []⟩) ≠
      ⟨[⟨"user", [mkText "a", mkText "b"]⟩], "m", false, [], none, []⟩ := by
  constructor
  · rfl
  · have hval : from_openai_chat (to_openai_chat
        ⟨[⟨"user", [mkText "a", mkText "b"]⟩], "m", false, [], none, []⟩) =
        ⟨[⟨"user", [mkText "a\nb"]⟩], "m", false, [], none, []⟩ := by
      rfl
    rw [hval]
    intro h
    simp only [InternalChatRequest.mk.injEq, List.cons.injEq, InternalMessage.mk.injEq]
      at h
    exact absurd h.1.1.2 (by simp)

/-- C2 (amended): the round trip through a dialect is the identity on
the dialect's admissible neutral requests (`admissible_openai` /
`admissible_claude`), which refine the claim's supported-block-kind
condition; block-kind support alone is not sufficient (see the
counterexample). -/
theorem c2_roundtrip_amended (N : InternalChatRequest) :
    (admissible_openai N = true → from_openai_chat (to_openai_chat N) = N) ∧
    (admissible_claude N = true → _from_claude_chat (to_claude_chat N) = N) :=
  ⟨fun h => from_to_openai h, fun h => from_to_claude h⟩

/-- C2 witness: a concrete request admissible for both dialects round
trips through both adapters. -/
theorem c2_roundtrip_amended_witness :
    admissible_openai ⟨[⟨"user", [mkText "hi"]⟩], "m", false, [], none, []⟩ = true ∧
    admissible_claude ⟨[⟨"user", [mkText "hi"]⟩], "m", false, [], none, []⟩ = true ∧
    from_openai_chat (to_openai_chat
      ⟨[⟨"user", [mkText "hi"]⟩], "m", false, [], none, []⟩) =
      ⟨[⟨"user", [mkText "hi"]⟩], "m", false, [], none, []⟩ ∧
    _from_claude_chat (to_claude_chat
      ⟨[⟨"user", [mkText "hi"]⟩], "m", false, [], none, []⟩) =
      ⟨[⟨"user", [mkText "hi"]⟩], "m", false, [], none, []⟩ :=
  ⟨by decide, by decide,
    (c2_roundtrip_amended ⟨[⟨"user", [mkText "hi"]⟩], "m", false, [], none, []⟩).1
      (by decide),
    (c2_roundtrip_amended ⟨[⟨"user", [mkText "hi"]⟩], "m", false, [], none, []⟩).2
      (by decide)⟩

/-- C3: for thresholds `low_t < high_t`, `bow_predict` reports a
violation iff the probability exceeds `high_t`; below `low_t` it
passes on the low-risk branch; inside `[low_t, high_t]` it takes the
uncertain branch and still does not report a violation. -/
theorem c3_bow_predict_bands (proba low_t high_t : ℚ) (hlt : low_t < high_t) :
    ((bow_predict proba low_t high_t).violation = true ↔ proba > high_t) ∧
    (proba < low_t →
      (bow_predict proba low_t high_t).violation = false ∧
      (bow_predict proba low_t high_t).band = .lowRisk) ∧
    (low_t ≤ proba ∧ proba ≤ high_t →
      (bow_predict proba low_t high_t).violation = false ∧
      (bow_predict proba low_t high_t).band = .uncertain) := by
  unfold bow_predict
  split_ifs with h1 h2
  · refine ⟨by simp; linarith, fun _ => ⟨rfl, rfl⟩, fun hmid => absurd h1 (by linarith [hmid.1])⟩
  · exact ⟨by simp [h2], fun hlow => absurd hlow h1, fun hmid => absurd h2 (by simp; linarith [hmid.2])⟩
  · refine ⟨by simpa using h2, fun hlow => absurd hlow h1, fun _ => ⟨rfl, rfl⟩⟩

/-- C3 witness: at probability 1/2 with thresholds 1/4 < 3/4 the result
is the non-violating uncertain branch. -/
theorem c3_bow_predict_bands_witness :
    (bow_predict (1/2) (1/4) (3/4)).violation = false ∧
    (bow_predict (1/2) (1/4) (3/4)).band = .uncertain :=
  (c3_bow_predict_bands (1/2) (1/4) (3/4) (by norm_num)).2.2 ⟨by norm_num, by norm_num⟩

/-- C8 counterexample: on a network error `forward_request` answers with
HTTP status 500, not the 502 the claim states. -/
theorem c8_counterexample :
    (forward_request (.networkError "connection refused")).status = 500 ∧
    (forward_request (.networkError "connection refused")).status ≠ 502 := by
  exact ⟨rfl, by decide⟩

/-- C8 amended: on an upstream network error the client receives HTTP
status 500 (not 502) with an error envelope whose `code` field is
`"UPSTREAM_ERROR"`. -/
theorem c8_upstream_error_amended (msg : String) :
    (forward_request (.networkError msg)).status = 500 ∧
    (match (forward_request (.networkError msg)).body with
     | .obj o => Json.getKey (Json.asObjD (Json.getKey o "error") []) "code"
     | _ => none) = some (.str "UPSTREAM_ERROR") :=
  ⟨rfl, rfl⟩

/-- C9: `should_train` returns true iff the sample count reaches
`min_samples` and either no model exists or the model age in minutes
exceeds `retrain_interval_minutes`. -/
theorem c9_should_train_iff (sample_count min_samples : ℕ) (model_exists : Bool)
    (now model_mtime retrain_interval_minutes : ℚ) :
    should_train sample_count min_samples model_exists now model_mtime
        retrain_interval_minutes = true ↔
      (min_samples ≤ sample_count ∧
        (model_exists = false ∨ (now - model_mtime) / 60 > retrain_interval_minutes)) := by
  unfold should_train
  split_ifs with h1 h2
  · simp only [Bool.false_eq_true, false_iff]
    rintro ⟨hle, -⟩
    omega
  · simp only [true_iff]
    refine ⟨by omega, .inl (by simpa using h2)⟩
  · rw [decide_eq_true_iff]
    constructor
    · intro hgt
      refine ⟨by omega, .inr ?_⟩
      rw [gt_iff_lt, lt_div_iff₀ (by norm_num : (0:ℚ) < 60)]
      linarith
    · rintro ⟨-, hor⟩
      rcases hor with hme | hdiv
      · simp [hme] at h2
      · rw [gt_iff_lt, lt_div_iff₀ (by norm_num : (0:ℚ) < 60)] at hdiv
        linarith

/-- C4 counterexample: with the single keyword line `a.b` and input
text `a.b`, `basic_moderation` blocks, but the rejection reason carries
the `re.escape`d pattern `a\.b`, not the raw keyword `a.b` the claim
states. -/
theorem c4_counterexample :
    basic_moderation "a.b" true "BASIC_MODERATION_BLOCKED" ["a.b"] =
      (false, some "[BASIC_MODERATION_BLOCKED] Matched keyword: a\\.b") ∧
    ("[BASIC_MODERATION_BLOCKED] Matched keyword: a\\.b" : String) ≠
      "[BASIC_MODERATION_BLOCKED] Matched keyword: a.b" := by
  exact ⟨rfl, by decide⟩

/-- C4 amended: with basic moderation enabled, `basic_moderation`
blocks iff some line of the file that is non-blank and not
`#`-prefixed after trimming occurs in the text as a case-insensitive
literal substring; the rejection reason is then
`"[<error_code>] Matched keyword: <pattern>"` where `<pattern>` is the
`re.escape`d form of the first such keyword (identical to the keyword
whenever it contains no regex metacharacter); otherwise it passes with
no reason. -/
theorem c4_basic_moderation_amended (text ec : String) (fileLines : List String) :
    ((basic_moderation text true ec fileLines).1 = false ↔
      ∃ line ∈ fileLines, pyStrip line ≠ "" ∧ strStartsWith (pyStrip line) "#" = false ∧
        ciSubstring (pyStrip line) text = true) ∧
    ((basic_moderation text true ec fileLines).1 = false →
      ∃ kw, (_load_patterns fileLines).find? (fun kw => ciSubstring kw text) = some kw ∧
        (basic_moderation text true ec fileLines).2 =
          some ("[" ++ ec ++ "] Matched keyword: " ++ pyReEscape kw)) ∧
    ((basic_moderation text true ec fileLines).1 = true →
      (basic_moderation text true ec fileLines).2 = none) := by
  have hmem : (∃ kw ∈ _load_patterns fileLines, ciSubstring kw text = true) ↔
      ∃ line ∈ fileLines, pyStrip line ≠ "" ∧ strStartsWith (pyStrip line) "#" = false ∧
        ciSubstring (pyStrip line) text = true := by
    constructor
    · rintro ⟨kw, hkw, hci⟩
      rw [_load_patterns, List.mem_filterMap] at hkw
      obtain ⟨line, hline, hsome⟩ := hkw
      refine ⟨line, hline, ?_⟩
      by_cases h1 : pyStrip line = "" <;>
        by_cases h2 : strStartsWith (pyStrip line) "#" = true <;>
        simp [h1, h2] at hsome
      exact ⟨h1, by simpa using h2, hsome ▸ hci⟩
    · rintro ⟨line, hline, h1, h2, hci⟩
      refine ⟨pyStrip line, ?_, hci⟩
      rw [_load_patterns, List.mem_filterMap]
      exact ⟨line, hline, by simp [h1, h2]⟩
  rcases hfind : (_load_patterns fileLines).find? (fun kw => ciSubstring kw text) with
    _ | kw
  · have hb : basic_moderation text true ec fileLines = (true, none) := by
      unfold basic_moderation keywordMatch
      rw [hfind]
      rfl
    have h1 : (basic_moderation text true ec fileLines).1 = true := by rw [hb]
    have h2 : (basic_moderation text true ec fileLines).2 = none := by rw [hb]
    refine ⟨⟨fun hfalse => absurd (h1 ▸ hfalse) (by decide), fun hex => ?_⟩,
      fun hfalse => absurd (h1 ▸ hfalse) (by decide), fun _ => h2⟩
    obtain ⟨kw, hkw, hci⟩ := hmem.mpr hex
    have := List.find?_eq_none.mp hfind kw hkw
    simp [hci] at this
  · have hkwp := List.find?_some hfind
    have hkwmem := List.mem_of_find?_eq_some hfind
    have hb : basic_moderation text true ec fileLines =
        (false, some ("[" ++ ec ++ "] Matched keyword: " ++ pyReEscape kw)) := by
      unfold basic_moderation keywordMatch
      rw [hfind]
      rfl
    have h1 : (basic_moderation text true ec fileLines).1 = false := by rw [hb]
    have h2 : (basic_moderation text true ec fileLines).2 =
        some ("[" ++ ec ++ "] Matched keyword: " ++ pyReEscape kw) := by rw [hb]
    refine ⟨⟨fun _ => hmem.mp ⟨kw, hkwmem, hkwp⟩, fun _ => h1⟩,
      fun _ => ⟨kw, rfl, h2⟩, fun htrue => absurd (h1 ▸ htrue) (by decide)⟩

/-- C4 witness: file `["# note", "", "  forbidden "]` with text
`"is Forbidden stuff"` blocks (case-insensitively), with the exact
reason string, and an unmatched text passes with no reason. -/
theorem c4_basic_moderation_witness :
    (∃ line ∈ ["# note", "", "  forbidden "], pyStrip line ≠ "" ∧
       strStartsWith (pyStrip line) "#" = false ∧
       ciSubstring (pyStrip line) "is Forbidden stuff" = true) ∧
    (basic_moderation "is Forbidden stuff" true "BASIC_MODERATION_BLOCKED"
       ["# note", "", "  forbidden "]).2 =
      some "[BASIC_MODERATION_BLOCKED] Matched keyword: forbidden" ∧
    (basic_moderation "hello" true "BASIC_MODERATION_BLOCKED"
       ["# note", "", "  forbidden "]).2 = none := by
  refine ⟨?_, ?_, ?_⟩
  · exact (c4_basic_moderation_amended "is Forbidden stuff" "BASIC_MODERATION_BLOCKED"
      ["# note", "", "  forbidden "]).1.mp (by decide)
  · obtain ⟨kw, hfind, hreason⟩ :=
      (c4_basic_moderation_amended "is Forbidden stuff" "BASIC_MODERATION_BLOCKED"
        ["# note", "", "  forbidden "]).2.1 (by decide)
    have : kw = "forbidden" := by
      have h : (_load_patterns ["# note", "", "  forbidden "]).find?
          (fun kw => ciSubstring kw "is Forbidden stuff") = some "forbidden" := by decide
      rw [h] at hfind
      exact (Option.some_injective _ hfind).symm
    rw [hreason, this]
    rfl
  · exact (c4_basic_moderation_amended "hello" "BASIC_MODERATION_BLOCKED"
      ["# note", "", "  forbidden "]).2.2 (by decide)

/-- C6: the selection phase of `train_bow_model` first trims the store
oldest-first to at most `max_db_items` samples, then (when at least
`min_samples` remain) selects the ids of the most recent
`N = min(max_samples, store_count)` samples and shuffles them into the
training order.  The storage methods it calls are modelled from the
spec. -/
theorem c6_train_prepare (store : List Sample) (cfg : BowTrainCfg)
    (shuffle : List ℕ → List ℕ) (hshuffle : ∀ l : List ℕ, (shuffle l).Perm l) :
    ((train_bow_prepare store cfg shuffle).1.length ≤ cfg.max_db_items) ∧
    (∃ k, (train_bow_prepare store cfg shuffle).1 = store.drop k) ∧
    (cfg.min_samples ≤ (train_bow_prepare store cfg shuffle).1.length →
      ∃ ids, (train_bow_prepare store cfg shuffle).2 = some ids ∧
        ids.Perm (((train_bow_prepare store cfg shuffle).1.drop
            ((train_bow_prepare store cfg shuffle).1.length -
              min cfg.max_samples (train_bow_prepare store cfg shuffle).1.length)).map
          Sample.id)) ∧
    ((train_bow_prepare store cfg shuffle).1.length < cfg.min_samples →
      (train_bow_prepare store cfg shuffle).2 = none) := by
  simp only [train_bow_prepare]
  by_cases hc : (cleanup_excess_samples store cfg.max_db_items).length < cfg.min_samples
  · rw [if_pos hc]
    dsimp only
    refine ⟨?_, ⟨store.length - cfg.max_db_items, rfl⟩, fun hmin => absurd hc (by omega),
      fun _ => rfl⟩
    unfold cleanup_excess_samples
    rw [List.length_drop]
    omega
  · rw [if_neg hc]
    dsimp only
    refine ⟨?_, ⟨store.length - cfg.max_db_items, rfl⟩, fun hmin => ⟨_, rfl, hshuffle _⟩,
      fun hlt => absurd hlt hc⟩
    unfold cleanup_excess_samples
    rw [List.length_drop]
    omega

/-- C6 witness: a three-sample store with `max_db_items = 2`,
`min_samples = 1`, `max_samples = 2` and a reversing shuffle is trimmed
to the newest two samples and selects a permutation of their ids. -/
theorem c6_train_prepare_witness :
    (train_bow_prepare [⟨0, 0⟩, ⟨1, 1⟩, ⟨2, 0⟩] ⟨2, 2, 1⟩ List.reverse).1.length ≤ 2 ∧
    ∃ ids, (train_bow_prepare [⟨0, 0⟩, ⟨1, 1⟩, ⟨2, 0⟩] ⟨2, 2, 1⟩ List.reverse).2 =
        some ids ∧ ids.Perm [1, 2] := by
  have h := c6_train_prepare [⟨0, 0⟩, ⟨1, 1⟩, ⟨2, 0⟩] ⟨2, 2, 1⟩ List.reverse
    (fun l => l.reverse_perm)
  refine ⟨h.1, ?_⟩
  obtain ⟨ids, hids, hperm⟩ := h.2.2.1 (by decide)
  exact ⟨ids, hids, by simpa using hperm⟩

/-- C7 counterexample: the persistence step of `train_bow_model` never
performs a write-then-rename publication — neither artifact is written
atomically in the sense the claim states. -/
theorem c7_counterexample :
    ¬ atomicPublish (persistArtifacts "vectorizer.bin" "model.bin") "model.bin" ∧
    ¬ atomicPublish (persistArtifacts "vectorizer.bin" "model.bin") "vectorizer.bin" := by
  constructor <;> rintro ⟨tmp, hne, hw, hr⟩ <;> simp [persistArtifacts] at hr

/-- C7 amended: the trainer writes the vectorizer before the model, but
each artifact is a single direct write to its final path (no temporary
file, no rename); consequently every prefix of the persistence trace
that contains the model write also contains the vectorizer write. -/
theorem c7_persist_order_amended (vp mp : String) (n : ℕ)
    (h : FsOp.write mp ∈ (persistArtifacts vp mp).take n) :
    FsOp.write vp ∈ (persistArtifacts vp mp).take n ∧
    persistArtifacts vp mp = [FsOp.write vp, FsOp.write mp] := by
  refine ⟨?_, rfl⟩
  match n with
  | 0 => simp at h
  | 1 => simp [persistArtifacts]
  | n + 2 => simp [persistArtifacts]

/-- C7 witness: in the full persistence trace the model write is
present, and so is the vectorizer write. -/
theorem c7_persist_order_witness :
    FsOp.write "vectorizer.bin" ∈ (persistArtifacts "vectorizer.bin" "model.bin").take 2 :=
  (c7_persist_order_amended "vectorizer.bin" "model.bin" 2 (by decide)).1

theorem strAppend_empty (s : String) : s ++ "" = s := by
  cases s
  show String.mk _ = String.mk _
  simp [String.append]

theorem strEmpty_append (s : String) : "" ++ s = s := by
  cases s
  show String.mk _ = String.mk _
  simp [String.append]

theorem strAppend_assoc (a b c : String) : a ++ b ++ c = a ++ (b ++ c):= by
  cases a; cases b; cases c
  show String.mk _ = String.mk _
  simp [String.append]

theorem strLength_append (a b : String) : (a ++ b).length = a.length + b.length := by
  cases a; cases b
  show (String.mk _).length = _
  simp [String.append, String.length]

theorem choiceStep_decomp (st : CheckerState) (choice : Json) :
    choiceStep st choice =
      ⟨st.accumulated_content ++ (choiceStep initChecker choice).accumulated_content,
       st.has_tool_call || (choiceStep initChecker choice).has_tool_call⟩ := by
  unfold choiceStep initChecker
  rcases hget : Json.getKey (Json.asObjD
      (Json.getKey (Json.asObjD (some choice) []) "delta") []) "content" with _ | v
  · by_cases ht : ((Json.getKey (Json.asObjD
        (Json.getKey (Json.asObjD (some choice) []) "delta") []) "tool_calls").getD
        .null).truthy = true <;>
      simp [hget, ht, strAppend_empty]
  · cases v <;>
      by_cases ht : ((Json.getKey (Json.asObjD
          (Json.getKey (Json.asObjD (some choice) []) "delta") []) "tool_calls").getD
          .null).truthy = true <;>
        simp [hget, ht, strAppend_empty, strEmpty_append]

theorem foldl_choiceStep_decomp (l : List Json) :
    ∀ st : CheckerState, l.foldl choiceStep st =
      ⟨st.accumulated_content ++ (l.foldl choiceStep initChecker).accumulated_content,
       st.has_tool_call || (l.foldl choiceStep initChecker).has_tool_call⟩ := by
  induction l with
  | nil =>
    intro st
    cases st
    simp [initChecker, strAppend_empty]
  | cons a t ih =>
    intro st
    rw [List.foldl_cons, List.foldl_cons, ih (choiceStep st a),
      ih (choiceStep initChecker a), choiceStep_decomp st a]
    simp [strAppend_assoc, Bool.or_assoc]

theorem parseChoices_decomp (st : CheckerState) (d : Jobj) :
    parseChoices st d =
      ⟨st.accumulated_content ++ (parseChoices initChecker d).accumulated_content,
       st.has_tool_call || (parseChoices initChecker d).has_tool_call⟩ := by
  unfold parseChoices
  rcases hget : Json.getKey d "choices" with _ | v
  · cases st
    simp [initChecker, strAppend_empty]
  · cases v
    case arr choices => exact foldl_choiceStep_decomp choices st
    all_goals (cases st; simp [initChecker, strAppend_empty])

theorem parseClaudeEvent_decomp (st : CheckerState) (d : Jobj) :
    parseClaudeEvent st d =
      ⟨st.accumulated_content ++ (parseClaudeEvent initChecker d).accumulated_content,
       st.has_tool_call || (parseClaudeEvent initChecker d).has_tool_call⟩ := by
  unfold parseClaudeEvent
  rcases hget : Json.getKey d "type" with _ | dtype
  · cases st
    simp [initChecker, strAppend_empty]
  · by_cases h1 : dtype = Json.str "content_block_delta"
    · by_cases h2 : Json.getKey (Json.asObjD (Json.getKey d "delta") []) "type" =
          some (Json.str "text_delta") <;>
        · cases st
          simp [h1, h2, initChecker, strAppend_empty, strEmpty_append]
    · by_cases h3 : dtype = Json.str "message_start"
      · by_cases h4 : (Json.asArrD (Json.getKey
            (Json.asObjD (Json.getKey d "message") []) "content") []).any (fun c =>
            Json.getKey (Json.asObjD (some c) []) "type" =
              some (Json.str "tool_use")) = true <;>
          · cases st
            simp [h1, h3, h4, initChecker, strAppend_empty]
      · by_cases h4 : dtype = Json.str "content_block_start"
        · by_cases h5 : Json.getKey (Json.asObjD (Json.getKey d "content_block") [])
              "type" = some (Json.str "tool_use") <;>
            · cases st
              simp [h1, h3, h4, h5, initChecker, strAppend_empty]
        · cases st
          simp [h1, h3, h4, initChecker, strAppend_empty]

theorem parse_data_decomp (st : CheckerState) (data : Json) :
    parse_data st data =
      ⟨st.accumulated_content ++ frameText data, st.has_tool_call || frameTool data⟩ := by
  unfold frameText frameTool
  cases data
  case obj d =>
    show parseClaudeEvent (parseChoices st d) d = _
    rw [parseClaudeEvent_decomp (parseChoices st d) d, parseChoices_decomp st d]
    show _ = ⟨st.accumulated_content ++
        (parseClaudeEvent (parseChoices initChecker d) d).accumulated_content,
      st.has_tool_call || (parseClaudeEvent (parseChoices initChecker d) d).has_tool_call⟩
    rw [parseClaudeEvent_decomp (parseChoices initChecker d) d,
      parseChoices_decomp initChecker d]
    simp [initChecker, strAppend_assoc, Bool.or_assoc, strEmpty_append]
  all_goals (cases st; simp [parse_data, initChecker, strAppend_empty])

theorem commitCond_mono (a b : String) (f g : Bool) (h : commitCond ⟨a, f⟩ = true) :
    commitCond ⟨a ++ b, f || g⟩ = true := by
  simp only [commitCond, Bool.or_eq_true, decide_eq_true_eq] at h ⊢
  rcases h with h | h
  · exact .inl (.inl h)
  · right
    rw [strLength_append]
    omega

theorem checkLines_cons (st : CheckerState) (line : String) (rest : List String) :
    checkLines st (line :: rest) =
      match lineData line with
      | none => checkLines st rest
      | some data =>
        if commitCond (parse_data st data) then (true, parse_data st data)
        else checkLines (parse_data st data) rest := by
  show (if !strStartsWith (pyStrip line) "data: " then checkLines st rest
    else if strDrop (pyStrip line) 6 = "[DONE]" then checkLines st rest
    else match parseJson (strDrop (pyStrip line) 6) with
      | none => checkLines st rest
      | some data =>
        if commitCond (parse_data st data) then (true, parse_data st data)
        else checkLines (parse_data st data) rest) = _
  unfold lineData
  cases h1 : strStartsWith (pyStrip line) "data: "
  · simp [h1]
  · simp only [h1, Bool.not_true, Bool.false_eq_true, if_false]
    by_cases h2 : strDrop (pyStrip line) 6 = "[DONE]"
    · simp [h2]
    · simp only [h2, if_false, if_neg h2]

theorem checkLines_spec (lines : List String) :
    ∀ st : CheckerState, commitCond st = false →
      (commitCond ⟨st.accumulated_content ++ linesText lines,
          st.has_tool_call || linesTool lines⟩ = false →
        checkLines st lines = (false, ⟨st.accumulated_content ++ linesText lines,
          st.has_tool_call || linesTool lines⟩)) ∧
      (commitCond ⟨st.accumulated_content ++ linesText lines,
          st.has_tool_call || linesTool lines⟩ = true →
        (checkLines st lines).1 = true ∧ commitCond (checkLines st lines).2 = true) := by
  induction lines with
  | nil =>
    intro st hst
    constructor
    · intro _
      cases st
      simp [checkLines, linesText, linesTool, strAppend_empty]
    · intro hfull
      cases st
      simp only [linesText, linesTool, strAppend_empty, Bool.or_false] at hfull
      rw [hst] at hfull
      exact Bool.noConfusion hfull
  | cons line rest ih =>
    intro st hst
    rw [checkLines_cons]
    cases hl : lineData line with
    | none =>
      have hlt : lineText line = "" := by unfold lineText; rw [hl]
      have hltool : lineTool line = false := by unfold lineTool; rw [hl]
      simp only [linesText, linesTool, hlt, hltool, strEmpty_append, Bool.false_or]
      exact ih st hst
    | some data =>
      have hlt : lineText line = frameText data := by unfold lineText; rw [hl]
      have hltool : lineTool line = frameTool data := by unfold lineTool; rw [hl]
      simp only [linesText, linesTool, hlt, hltool]
      rw [parse_data_decomp st data]
      by_cases hcs : commitCond ⟨st.accumulated_content ++ frameText data,
          st.has_tool_call || frameTool data⟩ = true
      · rw [if_pos hcs]
        constructor
        · intro hfull
          exfalso
          have := commitCond_mono _ (linesText rest) _ (linesTool rest) hcs
          rw [strAppend_assoc, Bool.or_assoc] at this
          rw [this] at hfull
          exact Bool.noConfusion hfull
        · intro _
          exact ⟨rfl, hcs⟩
      · rw [if_neg hcs]
        have ih' := ih ⟨st.accumulated_content ++ frameText data,
          st.has_tool_call || frameTool data⟩ (by simpa using hcs)
        simp only at ih'
        rw [strAppend_assoc, Bool.or_assoc] at ih'
        exact ih'

theorem check_chunk_spec (st : CheckerState) (chunk : String)
    (hst : commitCond st = false) :
    (commitCond ⟨st.accumulated_content ++ chunkText chunk,
        st.has_tool_call || chunkTool chunk⟩ = false →
      check_chunk st chunk = (false, ⟨st.accumulated_content ++ chunkText chunk,
        st.has_tool_call || chunkTool chunk⟩)) ∧
    (commitCond ⟨st.accumulated_content ++ chunkText chunk,
        st.has_tool_call || chunkTool chunk⟩ = true →
      (check_chunk st chunk).1 = true ∧ commitCond (check_chunk st chunk).2 = true) := by
  unfold check_chunk
  rw [if_neg (by simp [hst])]
  exact checkLines_spec (splitOnChar '\n' chunk) st hst

theorem check_chunk_committed (st : CheckerState) (chunk : String)
    (hst : commitCond st = true) : check_chunk st chunk = (true, st) := by
  unfold check_chunk
  rw [if_pos hst]

theorem checkRun_get (chunks : List String) :
    ∀ (st ideal : CheckerState),
      (commitCond st = commitCond ideal) →
      (commitCond ideal = false → st = ideal) →
      ∀ k, k < chunks.length →
        (checkRun st chunks).get? k =
          some (commitCond ⟨ideal.accumulated_content ++ streamText (chunks.take (k + 1)),
            ideal.has_tool_call || streamTool (chunks.take (k + 1))⟩) := by
  induction chunks with
  | nil =>
    intro _ _ _ _ k hk
    exact absurd hk (by simp)
  | cons c cs ih =>
    intro st ideal hinv1 hinv2 k hk
    have hassoc : ∀ pre : List String,
        (⟨ideal.accumulated_content ++ streamText (c :: pre),
          ideal.has_tool_call || streamTool (c :: pre)⟩ : CheckerState) =
        ⟨(ideal.accumulated_content ++ chunkText c) ++ streamText pre,
          (ideal.has_tool_call || chunkTool c) || streamTool pre⟩ := by
      intro pre
      simp [streamText, streamTool, strAppend_assoc, Bool.or_assoc]
    rw [List.take_succ_cons, hassoc (cs.take k)]
    cases hcs : commitCond st with
    | true =>
      have hideal : commitCond ideal = true := hinv1 ▸ hcs
      have hfullc : commitCond ⟨ideal.accumulated_content ++ chunkText c,
          ideal.has_tool_call || chunkTool c⟩ = true := by
        cases ideal
        exact commitCond_mono _ _ _ _ hideal
      rw [checkRun, check_chunk_committed st c hcs]
      cases k with
      | zero =>
        simp only [List.take_zero, streamText, streamTool, strAppend_empty, Bool.or_false,
          List.get?_cons_zero, Option.some.injEq]
        exact hfullc.symm
      | succ k =>
        rw [List.get?_cons_succ]
        exact ih st ⟨ideal.accumulated_content ++ chunkText c,
            ideal.has_tool_call || chunkTool c⟩
          (by rw [hcs, hfullc])
          (by intro hcontr
              rw [hfullc] at hcontr
              exact Bool.noConfusion hcontr)
          k (by simpa using hk)
    | false =>
      have hideal : commitCond ideal = false := hinv1 ▸ hcs
      have hsteq : st = ideal := hinv2 hideal
      rw [hsteq]
      have hspec := check_chunk_spec ideal c hideal
      by_cases hfull : commitCond ⟨ideal.accumulated_content ++ chunkText c,
          ideal.has_tool_call || chunkTool c⟩ = true
      · obtain ⟨hres, hcommit⟩ := hspec.2 hfull
        rcases hchk : check_chunk ideal c with ⟨r, st'⟩
        rw [hchk] at hres hcommit
        dsimp only at hres hcommit
        subst hres
        have hrun : checkRun ideal (c :: cs) = true :: checkRun st' cs := by
          rw [checkRun, hchk]
        rw [hrun]
        cases k with
        | zero =>
          simp only [List.take_zero, streamText, streamTool, strAppend_empty, Bool.or_false,
            List.get?_cons_zero, Option.some.injEq]
          exact hfull.symm
        | succ k =>
          rw [List.get?_cons_succ]
          exact ih st' ⟨ideal.accumulated_content ++ chunkText c,
              ideal.has_tool_call || chunkTool c⟩
            (by rw [hcommit, hfull])
            (by intro hcontr
                rw [hfull] at hcontr
                exact Bool.noConfusion hcontr)
            k (by simpa using hk)
      · have hfull' : commitCond ⟨ideal.accumulated_content ++ chunkText c,
            ideal.has_tool_call || chunkTool c⟩ = false := by simpa using hfull
        have heq := hspec.1 hfull'
        have hrun : checkRun ideal (c :: cs) =
            false :: checkRun ⟨ideal.accumulated_content ++ chunkText c,
              ideal.has_tool_call || chunkTool c⟩ cs := by
          rw [checkRun, heq]
        rw [hrun]
        cases k with
        | zero =>
          simp only [List.take_zero, streamText, streamTool, strAppend_empty, Bool.or_false,
            List.get?_cons_zero, Option.some.injEq]
          exact hfull'.symm
        | succ k =>
          rw [List.get?_cons_succ]
          exact ih ⟨ideal.accumulated_content ++ chunkText c,
              ideal.has_tool_call || chunkTool c⟩
            ⟨ideal.accumulated_content ++ chunkText c,
              ideal.has_tool_call || chunkTool c⟩
            rfl (fun _ => rfl) k (by simpa using hk)

theorem checkRun_measure (chunks : List String) (k : ℕ) (hk : k < chunks.length) :
    (checkRun initChecker chunks).get? k = some (measureCond (chunks.take (k + 1))) := by
  have := checkRun_get chunks initChecker initChecker rfl (fun _ => rfl) k hk
  rw [this]
  unfold measureCond commitCond initChecker
  simp [strEmpty_append]

theorem streamText_append (l1 l2 : List String) :
    streamText (l1 ++ l2) = streamText l1 ++ streamText l2 := by
  induction l1 with
  | nil => simp [streamText, strEmpty_append]
  | cons c cs ih => simp [streamText, ih, strAppend_assoc]

theorem streamTool_append (l1 l2 : List String) :
    streamTool (l1 ++ l2) = (streamTool l1 || streamTool l2) := by
  induction l1 with
  | nil => simp [streamTool]
  | cons c cs ih => simp [streamTool, ih, Bool.or_assoc]

theorem measureCond_mono (chunks : List String) (m n : ℕ) (hmn : m ≤ n)
    (h : measureCond (chunks.take m) = true) : measureCond (chunks.take n) = true := by
  have hsplit : chunks.take n = chunks.take m ++ ((chunks.take n).drop m) := by
    conv_lhs => rw [← List.take_append_drop m (chunks.take n)]
    rw [List.take_take, Nat.min_eq_left hmn]
  rw [hsplit]
  unfold measureCond at h ⊢
  rw [streamTool_append, streamText_append, strLength_append]
  simp only [Bool.or_eq_true, decide_eq_true_eq] at h ⊢
  rcases h with h | h
  · exact .inl (.inl h)
  · right
    omega

/-- C5: if the decoded data frames accumulate more than 2 characters of
delta text (or a tool-call start) by chunk `k` and not by chunk `k-1`,
then `check_chunk` returns True at chunk `k` and at no earlier chunk;
a sequence of chunks whose frames carry no content and no tool-call
start never makes `check_chunk` return True. -/
theorem c5_stream_commit :
    (∀ (chunks : List String) (k : ℕ), k < chunks.length →
      measureCond (chunks.take (k + 1)) = true →
      measureCond (chunks.take k) = false →
      (checkRun initChecker chunks).get? k = some true ∧
        ∀ j, j < k → (checkRun initChecker chunks).get? j = some false) ∧
    (∀ chunks : List String, (∀ c ∈ chunks, chunkText c = "" ∧ chunkTool c = false) →
      ∀ j, j < chunks.length → (checkRun initChecker chunks).get? j = some false) := by
  constructor
  · intro chunks k hk hby hnotbefore
    constructor
    · rw [checkRun_measure chunks k hk, hby]
    · intro j hj
      rw [checkRun_measure chunks j (by omega)]
      congr 1
      by_cases hjm : measureCond (chunks.take (j + 1)) = true
      · exact absurd (measureCond_mono chunks (j + 1) k (by omega) hjm)
          (by rw [hnotbefore]; exact Bool.noConfusion)
      · simpa using hjm
  · intro chunks hquiet j hj
    rw [checkRun_measure chunks j hj]
    congr 1
    have hzero : ∀ pre : List String, (∀ c ∈ pre, chunkText c = "" ∧ chunkTool c = false) →
        streamText pre = "" ∧ streamTool pre = false := by
      intro pre
      induction pre with
      | nil => intro _; exact ⟨rfl, rfl⟩
      | cons c cs ih =>
        intro hp
        have hc := hp c (by simp)
        have hcs := ih (fun c' hc' => hp c' (by simp [hc']))
        simp [streamText, streamTool, hc.1, hc.2, hcs.1, hcs.2, strEmpty_append]
    have := hzero (chunks.take (j + 1))
      (fun c hc => hquiet c (List.take_subset _ _ hc))
    unfold measureCond
    rw [this.1, this.2]
    rfl

/-- C5 witness: a `[DONE]` keep-alive chunk followed by a chunk whose
frame carries the 3-character delta `abc` commits exactly at the second
chunk; a lone keep-alive never commits. -/
theorem c5_stream_commit_witness :
    (checkRun initChecker ["data: [DONE]",
      "data: \x7b\"choices\": [\x7b\"delta\": \x7b\"content\": \"abc\"\x7d\x7d]\x7d"]).get? 1 =
        some true ∧
    (checkRun initChecker ["data: [DONE]",
      "data: \x7b\"choices\": [\x7b\"delta\": \x7b\"content\": \"abc\"\x7d\x7d]\x7d"]).get? 0 =
        some false ∧
    (checkRun initChecker ["data: [DONE]"]).get? 0 = some false := by
  have h1 := (c5_stream_commit.1 ["data: [DONE]",
      "data: \x7b\"choices\": [\x7b\"delta\": \x7b\"content\": \"abc\"\x7d\x7d]\x7d"] 1
    (by decide) (by decide) (by decide))
  exact ⟨h1.1, h1.2 0 (by decide),
    c5_stream_commit.2 ["data: [DONE]"] (by decide) 0 (by decide)⟩

/-- C10: once `check_chunk` has returned True on some chunk, every call
on any sequence of subsequent chunks returns True again — the
accumulated content never shrinks and the tool-call flag is never
reset. -/
theorem c10_commit_monotone (st : CheckerState) (chunk : String)
    (h : (check_chunk st chunk).1 = true) :
    ∀ laterChunks : List String,
      ∀ r ∈ checkRun (check_chunk st chunk).2 laterChunks, r = true := by
  have hcommit : commitCond (check_chunk st chunk).2 = true := by
    by_cases hst : commitCond st = true
    · rw [check_chunk_committed st chunk hst]
      exact hst
    · have hst' : commitCond st = false := by simpa using hst
      rcases hcc : commitCond ⟨st.accumulated_content ++ chunkText chunk,
          st.has_tool_call || chunkTool chunk⟩ with _ | _
      · have heq := (check_chunk_spec st chunk hst').1 hcc
        rw [heq] at h
        exact Bool.noConfusion h
      · exact ((check_chunk_spec st chunk hst').2 hcc).2
  have hrun : ∀ (laterChunks : List String) (st' : CheckerState),
      commitCond st' = true → ∀ r ∈ checkRun st' laterChunks, r = true := by
    intro laterChunks
    induction laterChunks with
    | nil => intro st' _ r hr; simp [checkRun] at hr
    | cons c cs ih =>
      intro st' hst' r hr
      rw [checkRun, check_chunk_committed st' c hst'] at hr
      rcases List.mem_cons.mp hr with rfl | hr
      · rfl
      · exact ih st' hst' r hr
  intro laterChunks
  exact hrun laterChunks _ hcommit

/-- C10 witness: after a committing chunk, both following keep-alive
chunks still report True. -/
theorem c10_commit_monotone_witness :
    (check_chunk initChecker
      "data: \x7b\"choices\": [\x7b\"delta\": \x7b\"content\": \"abcd\"\x7d\x7d]\x7d").1 = true ∧
    (checkRun (check_chunk initChecker
        "data: \x7b\"choices\": [\x7b\"delta\": \x7b\"content\": \"abcd\"\x7d\x7d]\x7d").2
      ["data: [DONE]", ""]).headD false = true ∧
    (checkRun (check_chunk initChecker
        "data: \x7b\"choices\": [\x7b\"delta\": \x7b\"content\": \"abcd\"\x7d\x7d]\x7d").2
      ["data: [DONE]", ""]).getD 1 false = true :=
  ⟨by decide,
   c10_commit_monotone initChecker
     "data: \x7b\"choices\": [\x7b\"delta\": \x7b\"content\": \"abcd\"\x7d\x7d]\x7d"
     (by decide) ["data: [DONE]", ""] _ (by decide),
   c10_commit_monotone initChecker
     "data: \x7b\"choices\": [\x7b\"delta\": \x7b\"content\": \"abcd\"\x7d\x7d]\x7d"
     (by decide) ["data: [DONE]", ""] _ (by decide)⟩

end GuardianBridge
